import Mathlib

/-!
Verification development for the bricksmith nested-path engine.

The engine resolves and mutates values inside a tree of nested containers
(JS objects) and sequences (JS arrays) addressed by dotted paths with an
optional `[*]` wildcard suffix on a segment.  The definitions below are a
shallow embedding of the TypeScript source:

* `Node` models a JS value reachable from a tree root: `vnull` is the JS
  `null` (the spec's ExplicitNull absence state), `undef` is the JS
  `undefined` (the result of reading a missing key, i.e. the spec's
  Missing state, and also a storable value), `scalar` is a leaf value
  (modelled by its string payload), `obj` is a container (ordered
  field-name/value list), and `arr` is a sequence.  JS arrays can also
  carry named (non-index) string properties, and the engine's plain-path
  writer does write such properties, so `arr` carries a property list
  alongside its elements.
* Property reads on scalars are modelled as `undef`; the engine's paths
  are plain ASCII field names, never `length` or numeric indices, so this
  agrees with JS for the path language of the package.
* The package is TypeScript compiled as strict-mode modules: assigning a
  property on a primitive, or reading/assigning a property of `null` or
  `undefined`, throws a `TypeError`.  Functions of the source in which such
  a dereference is reachable are embedded with result type `Option _`,
  where `none` means the JS code throws.
-/

inductive Node where
  | vnull : Node
  | undef : Node
  | scalar : String → Node
  | obj : List (String × Node) → Node
  | arr : List Node → List (String × Node) → Node
deriving Repr

namespace Node

/-- Structural decidable equality for `Node` (the derive handler does not
support the nested `List` occurrences, so it is written by hand). -/
def beq : Node → Node → Bool
  | .vnull, .vnull => true
  | .undef, .undef => true
  | .scalar a, .scalar b => a == b
  | .obj fs, .obj gs => beqFields fs gs
  | .arr es ps, .arr fs qs => beqElems es fs && beqFields ps qs
  | _, _ => false
where
  beqFields : List (String × Node) → List (String × Node) → Bool
    | [], [] => true
    | (k, v) :: fs, (k', v') :: gs => k == k' && beq v v' && beqFields fs gs
    | _, _ => false
  beqElems : List Node → List Node → Bool
    | [], [] => true
    | e :: es, f :: fs => beq e f && beqElems es fs
    | _, _ => false

theorem beq_refl : (n : Node) → beq n n = true
  | .vnull => rfl
  | .undef => rfl
  | .scalar a => by simp [beq]
  | .obj fs => by simp [beq, beqFields_refl fs]
  | .arr es ps => by simp [beq, beqElems_refl es, beqFields_refl ps]
where
  beqFields_refl : (fs : List (String × Node)) → beq.beqFields fs fs = true
    | [] => rfl
    | (k, v) :: fs => by simp [beq.beqFields, beq_refl v, beqFields_refl fs]
  beqElems_refl : (es : List Node) → beq.beqElems es es = true
    | [] => rfl
    | e :: es => by simp [beq.beqElems, beq_refl e, beqElems_refl es]

theorem eq_of_beq : {a b : Node} → beq a b = true → a = b
  | .vnull, .vnull, _ => rfl
  | .undef, .undef, _ => rfl
  | .scalar a, .scalar b, h => by
      simp only [beq, beq_iff_eq] at h
      exact congrArg Node.scalar h
  | .obj fs, .obj gs, h => by
      simp only [beq] at h; simp [eqFields h]
  | .arr es ps, .arr fs qs, h => by
      simp only [beq, Bool.and_eq_true] at h
      simp [eqElems h.1, eqFields h.2]
where
  eqFields : {fs gs : List (String × Node)} → beq.beqFields fs gs = true → fs = gs
    | [], [], _ => rfl
    | (k, v) :: fs, (k', v') :: gs, h => by
        simp only [beq.beqFields, Bool.and_eq_true, beq_iff_eq] at h
        obtain ⟨⟨hk, hv⟩, hrest⟩ := h
        exact by simp [hk, eq_of_beq hv, eqFields hrest]
    | [], _ :: _, h => by simp [beq.beqFields] at h
    | _ :: _, [], h => by simp [beq.beqFields] at h
  eqElems : {es fs : List Node} → beq.beqElems es fs = true → es = fs
    | [], [], _ => rfl
    | e :: es, f :: fs, h => by
        simp only [beq.beqElems, Bool.and_eq_true] at h
        exact by simp [eq_of_beq h.1, eqElems h.2]
    | [], _ :: _, h => by simp [beq.beqElems] at h
    | _ :: _, [], h => by simp [beq.beqElems] at h

instance : DecidableEq Node := fun a b =>
  if h : beq a b then .isTrue (eq_of_beq h)
  else .isFalse (fun he => h (he ▸ beq_refl a))

/-- JS truthiness of a node: `null`, `undefined` and the empty string are
falsy; objects and arrays are always truthy. -/
def truthy : Node → Bool
  | .vnull => false
  | .undef => false
  | .scalar s => !(s == "")
  | .obj _ => true
  | .arr _ _ => true

/-- `typeof n === 'object'` in JS: true for objects, arrays and `null`. -/
def typeofObject : Node → Bool
  | .vnull => true
  | .obj _ => true
  | .arr _ _ => true
  | _ => false

/-- A node on which property reads/writes are ordinary: an object or an
array (`truthy n && typeof n === 'object'`). -/
def objLike : Node → Bool
  | .obj _ => true
  | .arr _ _ => true
  | _ => false

/-- `Array.isArray`. -/
def isArrayB : Node → Bool
  | .arr _ _ => true
  | _ => false

def isNullB : Node → Bool
  | .vnull => true
  | _ => false

def isUndefB : Node → Bool
  | .undef => true
  | _ => false

/-- Field lookup in an ordered field list; a missing key reads as
`undefined`, exactly as in JS. -/
def lookupFields : List (String × Node) → String → Node
  | [], _ => .undef
  | (k, v) :: fs, key => if k = key then v else lookupFields fs key

/-- Replace the value of the first occurrence of `key`, or append the
binding (JS property assignment keeps insertion order). -/
def setFields : List (String × Node) → String → Node → List (String × Node)
  | [], key, v => [(key, v)]
  | (k, w) :: fs, key, v =>
      if k = key then (k, v) :: fs else (k, w) :: setFields fs key v

/-- `delete o[key]`. -/
def delFields : List (String × Node) → String → List (String × Node)
  | [], _ => []
  | (k, w) :: fs, key => if k = key then fs else (k, w) :: delFields fs key

/-- Property read `n[key]`.  On an array this reads a named property (the
engine's paths never use numeric indices).  Reads on scalars yield
`undefined`; reads on `null`/`undefined` would throw and are guarded at
every call site of the source. -/
def getField : Node → String → Node
  | .obj fs, key => lookupFields fs key
  | .arr _ ps, key => lookupFields ps key
  | _, _ => ( .undef : Node)

/-- Property write `n[key] = v` on an object or array; identity on other
nodes (never reached by the theorems below, whose roots are containers). -/
def setField : Node → String → Node → Node
  | .obj fs, key, v => .obj (setFields fs key v)
  | .arr es ps, key, v => .arr es (setFields ps key v)
  | n, _, _ => n

/-- `delete n[key]`. -/
def delField : Node → String → Node
  | .obj fs, key => .obj (delFields fs key)
  | .arr es ps, key => .arr es (delFields ps key)
  | n, _ => n

end Node

/-! ## String helpers

The source manipulates paths with JS string methods (`split`, `indexOf`,
`lastIndexOf`, `substring`, `includes`).  They are embedded as executable
functions on the character list of the string. -/

/-- First index at which `pat` occurs as a substring (JS `indexOf`,
with `none` for `-1`). -/
def subIdx (s pat : List Char) : Option Nat :=
  if pat.isPrefixOf s then some 0
  else
    match s with
    | [] => none
    | _ :: rest => (subIdx rest pat).map (· + 1)

/-- Last index `≤ from'` at which character `c` occurs
(JS `lastIndexOf(c, from')`, with `none` for `-1`). -/
def lastIdxOfBefore (c : Char) (s : List Char) (from' : Nat) : Option Nat :=
  go (s.take (from' + 1)) 0 none
where
  go : List Char → Nat → Option Nat → Option Nat
    | [], _, best => best
    | x :: rest, i, best => go rest (i + 1) (if x = c then some i else best)

/-- JS `s.split(c)` for a single-character separator: never empty, and
`"".split(c) = [""]`. -/
def splitChar (c : Char) (s : String) : List String :=
  go s.data []
where
  go : List Char → List Char → List String
    | [], acc => [String.mk acc.reverse]
    | x :: rest, acc =>
        if x = c then String.mk acc.reverse :: go rest [] else go rest (x :: acc)

/-- JS `s.includes(pat)`. -/
def strContains (s pat : String) : Bool :=
  (subIdx s.data pat.data).isSome

def takeStr (s : String) (n : Nat) : String := String.mk (s.data.take n)

def dropStr (s : String) (n : Nat) : String := String.mk (s.data.drop n)

/-- JS `s.substring(a, b)` for `a ≤ b`. -/
def substrStr (s : String) (a b : Nat) : String :=
  String.mk ((s.data.take b).drop a)

/-! ## Path grammar (src/utils)

`PATH_CONSTANTS.DOT_SEPARATOR = '.'` and
`PATH_CONSTANTS.WILDCARD_PATTERN = '[*]'` (the constants module is not in
the tree; the values are fixed by the spec's glossary and the tests). -/

def wildcardPattern : List Char := ['[', '*', ']']

/-- `containsWildcard` — `path.includes('[*]')`. -/
def containsWildcard (path : String) : Bool :=
  (subIdx path.data wildcardPattern).isSome

/-- `containsDotSeparator`. -/
def containsDotSeparator (path : String) : Bool :=
  (subIdx path.data ['.']).isSome

/-- `findWildcardIndex` — index of the first `[*]` (`none` for `-1`). -/
def findWildcardIndex (path : String) : Option Nat :=
  subIdx path.data wildcardPattern

/-- `isTopLevelArrayPath`. -/
def isTopLevelArrayPath (path : String) : Bool :=
  containsWildcard path && !(containsDotSeparator path)

/-- `extractPathAfterWildcard` — everything after the first `[*]`, minus
one leading dot. -/
def extractPathAfterWildcard (path : String) : String :=
  match findWildcardIndex path with
  | none => ""
  | some w =>
      match path.data.drop (w + 3) with
      | '.' :: rest => String.mk rest
      | rest => String.mk rest

structure ParsedPath where
  beforeArray : String
  arrayPath : String
  afterArray : String
deriving Repr, DecidableEq

/-- `parsePath` — split a single-wildcard path into the prefix before the
array segment, the array field name, and the per-element sub-path.  The
source only invokes it on paths that contain a wildcard. -/
def parsePath (path : String) : ParsedPath :=
  match findWildcardIndex path with
  | none => ⟨"", "", ""⟩
  | some w =>
      match lastIdxOfBefore '.' path.data w with
      | none => ⟨"", takeStr path w, extractPathAfterWildcard path⟩
      | some d => ⟨takeStr path d, substrStr path (d + 1) w, extractPathAfterWildcard path⟩

/-- `splitPathByWildcards` — the while-loop of the source: cut the path at
every `[*]`, dropping one dot after each marker; a trailing marker does not
produce a final empty segment, and the empty path gives `[]`. -/
def splitPathByWildcards (path : String) : List String :=
  if path = "" then [] else go path.data []
where
  go : List Char → List Char → List String
    | [], acc => [String.mk acc.reverse]
    | '[' :: '*' :: ']' :: '.' :: rest, acc =>
        if rest.isEmpty then [String.mk acc.reverse]
        else String.mk acc.reverse :: go rest []
    | '[' :: '*' :: ']' :: rest, acc =>
        if rest.isEmpty then [String.mk acc.reverse]
        else String.mk acc.reverse :: go rest []
    | x :: rest, acc => go rest (x :: acc)

/-- `hasNestedWildcards` — a second `[*]` occurs after the first one. -/
def hasNestedWildcards (path : String) : Bool :=
  match subIdx path.data wildcardPattern with
  | none => false
  | some i => (subIdx (path.data.drop (i + 3)) wildcardPattern).isSome

/-- `countWildcards` — the indexOf/advance-by-3 counting loop. -/
def countWildcards (path : String) : Nat :=
  go path.data
where
  go : List Char → Nat
    | '[' :: '*' :: ']' :: rest => go rest + 1
    | _ :: rest => go rest
    | [] => 0

structure NWParts where
  rootObject : Option String
  outerArray : Option String
  outerProperty : Option String
  innerArray : Option String
  innerProperty : Option String
deriving Repr, DecidableEq

/-- JS `part.split('[')[0]`. -/
def untilBracket (s : String) : String :=
  String.mk (s.data.takeWhile (· ≠ '['))

/-- `parsePathForNestedWildcards` — names of the root object, outer/inner
arrays and their properties for a multi-wildcard path. -/
def parsePathForNestedWildcards (path : String) : NWParts :=
  if path = "" then ⟨none, none, none, none, none⟩
  else
    let parts := splitChar '.' path
    let root : Option String :=
      match parts with
      | p :: _ => if strContains p "[" then none else some p
      | [] => none
    let parts1 := if root.isSome then parts.tail else parts
    match parts1.findIdx? (fun part => strContains part "[*]") with
    | none => ⟨root, none, none, none, none⟩
    | some oi =>
        let outerArray := some (untilBracket (parts1.getD oi ""))
        let step2 : Option String × Option String × Option String :=
          if oi + 1 < parts1.length then
            let nextPart := parts1.getD (oi + 1) ""
            if !(strContains nextPart "[*]") then (some nextPart, none, none)
            else
              (none, some (untilBracket nextPart),
               if oi + 2 < parts1.length then some (parts1.getD (oi + 2) "") else none)
          else (none, none, none)
        let outerProperty := step2.1
        let innerArray0 := step2.2.1
        let innerProperty0 := step2.2.2
        let remaining := parts1.drop (oi + 1)
        match remaining.findIdx? (fun part => strContains part "[*]") with
        | some ii =>
            if innerArray0.isNone then
              ⟨root, outerArray, outerProperty,
               some (untilBracket (remaining.getD ii "")),
               if ii + 1 < remaining.length then some (remaining.getD (ii + 1) "") else none⟩
            else ⟨root, outerArray, outerProperty, innerArray0, innerProperty0⟩
        | none => ⟨root, outerArray, outerProperty, innerArray0, innerProperty0⟩

/-! ## Acceptance policy -/

/-- `ValueOptions` — the acceptance policy `{skipNull, skipUndefined,
strict, preserveNull}`. -/
structure ValueOptions where
  skipNull : Bool
  skipUndefined : Bool
  strict : Bool
  preserveNull : Bool
deriving Repr, DecidableEq

/-- The empty options object `{}` (all flags absent, i.e. falsy). -/
def noOptions : ValueOptions := ⟨false, false, false, false⟩

/-- The policy gate: `WildcardArrayPathHandler.shouldSkipValue`, and the
three inline checks at the top of
`NestedObjectPathHandler.setNestedValue`, which are character-identical. -/
def shouldSkipValue (v : Node) (o : ValueOptions) : Bool :=
  (Node.isNullB v && o.skipNull && !o.preserveNull) ||
  (Node.isUndefB v && o.skipUndefined) ||
  (o.strict && (Node.isUndefB v || (Node.isNullB v && !o.preserveNull)))

/-! ## Plain-path reader (src/utils getValueByPath) -/

/-- One step of the `reduce` in `getValueByPath`: a `null`/`undefined`
accumulator is returned unchanged, otherwise the property is read. -/
def readStep (acc : Node) (part : String) : Node :=
  match acc with
  | .undef => .undef
  | .vnull => .vnull
  | a => a.getField part

/-- The `reduce` over all dot segments. -/
def walkRead (obj : Node) (parts : List String) : Node :=
  parts.foldl readStep obj

/-- `getValueByPath` — read a value by dot-separated path; total (the
source checks `null`/`undefined` before every property read, so this read
never throws). -/
def getValueByPath (obj : Node) (path : String) : Node :=
  if !obj.truthy || path = "" then .undef
  else walkRead obj (splitChar '.' path)

/-! ## src/utils setValueByPath and isEmptyObject -/

/-- `isEmptyObject` — a non-null, non-array object with no keys. -/
def isEmptyObject : Node → Bool
  | .obj [] => true
  | _ => false

/-- The `reduce`/assignment of `setValueByPath`: walk the leading parts
creating `{}` at `undefined` slots, then assign the last part.  Unlike the
plain-path writer this helper has no guard against `null` or scalar
intermediates: walking into one dereferences `null` or assigns a property
on a primitive, and the JS throws — embedded as `none`. -/
def setValueByPathAux (v : Node) : Node → String → List String → Option Node
  | cur, last, [] =>
      match cur with
      | .obj _ => some (cur.setField last v)
      | .arr _ _ => some (cur.setField last v)
      | _ => none
  | cur, last, p :: ps =>
      match cur with
      | .obj _ | .arr _ _ =>
          (setValueByPathAux v (
            match cur.getField p with
            | .undef => Node.obj []
            | child => child) last ps).map (fun c =>
              cur.setField p c)
      | _ => none

/-- `setValueByPath` — set a value by dot-separated path, creating
intermediate objects at missing slots; `none` when the JS throws. -/
def setValueByPath (obj : Node) (path : String) (v : Node) : Option Node :=
  if !obj.truthy || path = "" then some obj
  else
    match (splitChar '.' path).getLast? with
    | none => some obj
    | some last => setValueByPathAux v obj last (splitChar '.' path).dropLast

/-! ## NestedObjectPathHandler (plain dotted paths) -/

namespace NestedObjectPathHandler

/-- `getNestedValue` of the plain handler delegates to `getValueByPath`. -/
def getNestedValue (obj : Node) (path : String) : Node :=
  getValueByPath obj path

/-- The creation walk of `setNestedValue` over all but the last segment:
at an `undefined` slot a `{}` is created (refused in strict mode); a
`null` or primitive slot aborts with `false`; an object or array slot is
walked into.  The boolean is the handler's return value; the node is the
tree after the walk (in-place JS mutation made explicit, so containers
created before an abort persist). -/
def walkSet (cur : Node) (parts : List String) (last : String) (v : Node)
    (strict : Bool) : Bool × Node :=
  match parts with
  | [] => (true, cur.setField last v)
  | p :: ps =>
      match cur.getField p with
      | .undef =>
          if strict then (false, cur)
          else
            let r := walkSet (Node.obj []) ps last v strict
            (r.1, cur.setField p r.2)
      | .vnull => (false, cur)
      | .scalar _ => (false, cur)
      | child =>
          let r := walkSet child ps last v strict
          (r.1, cur.setField p r.2)

/-- `NestedObjectPathHandler.setNestedValue` — the plain-path writer:
guard, policy gate, then the creation walk and the final assignment. -/
def setNestedValue (obj : Node) (path : String) (v : Node)
    (o : ValueOptions) : Bool × Node :=
  if !obj.truthy || path = "" then (false, obj)
  else if shouldSkipValue v o then (false, obj)
  else
    match (splitChar '.' path).getLast? with
    | none => (false, obj)
    | some last =>
        if last = "" then (false, obj)
        else walkSet obj (splitChar '.' path).dropLast last v o.strict

/-- The recursion of `cleanupEmptyObjects` over the split path. -/
def cleanupParts (obj : Node) : List String → Node
  | [] => obj
  | [key] => if isEmptyObject (obj.getField key) then obj.delField key else obj
  | part :: rest =>
      let child := obj.getField part
      if child.truthy && child.typeofObject then
        let child' := cleanupParts child rest
        if isEmptyObject child' then obj.delField part
        else obj.setField part child'
      else obj

/-- `NestedObjectPathHandler.cleanupEmptyObjects` — after a rejected
write, delete the addressed key if it holds an empty object, then each
parent on the path that has become empty. -/
def cleanupEmptyObjects (obj : Node) (path : String) : Node :=
  if !obj.truthy || path = "" then obj
  else cleanupParts obj (splitChar '.' path)

end NestedObjectPathHandler

/-! ## WildcardArrayPathHandler — reads -/

namespace WildcardArrayPathHandler

/-- `mapArrayElementsToValues` — read the sub-path in every element;
`null` and non-object elements map to `undefined`. -/
def mapArrayElementsToValues (array : List Node) (path : String) : List Node :=
  array.map fun item =>
    match item with
    | .obj _ | .arr _ _ =>
        let cleanPath := match path.data with
          | '.' :: rest => String.mk rest
          | _ => path
        getValueByPath item cleanPath
    | _ => ( .undef : Node)

/-- `getValueFromTopLevelArray` — single wildcard with no dots before it. -/
def getValueFromTopLevelArray (obj : Node) (path : String) : Node :=
  let w := (findWildcardIndex path).getD 0
  let arrayName := takeStr path w
  let afterArray := extractPathAfterWildcard path
  match obj.getField arrayName with
  | .arr es ps =>
      if afterArray = "" then .arr es ps
      else .arr (mapArrayElementsToValues es afterArray) []
  | _ => ( .undef : Node)

/-- The body of `getValueFromNestedPath` once the parent of the array
field has been resolved. -/
def fromParent (parent : Node) (pr : ParsedPath) : Node :=
  match parent.getField pr.arrayPath with
  | .arr es ps =>
      if pr.afterArray = "" then .arr es ps
      else .arr (mapArrayElementsToValues es pr.afterArray) []
  | _ => ( .undef : Node)

/-- `getValueFromNestedPath` — single wildcard with a prefix path. -/
def getValueFromNestedPath (obj : Node) (path : String) : Node :=
  let pr := parsePath path
  if pr.beforeArray = "" then fromParent obj pr
  else
    let parentObj := getValueByPath obj pr.beforeArray
    if !parentObj.truthy then .undef
    else fromParent parentObj pr

/-- The contribution of one element of a current-level sequence in
`getNestedWildcardValues`: `null`/non-object elements are skipped; the
sub-path is read (or the element itself used when the segment is empty);
an `undefined` result is skipped; at the last segment a sequence result is
spliced into the output, at the other levels every result is kept intact
as one entry. -/
def itemContribution (seg : String) (isLast : Bool) (item : Node) : List Node :=
  match item with
  | .obj _ | .arr _ _ =>
      let nextValue := if seg ≠ "" then getValueByPath item seg else item
      match nextValue with
      | .undef => []
      | .arr es ps => if isLast then es else [.arr es ps]
      | nv => [nv]
  | _ => []

/-- One iteration (one segment) of the loop of
`getNestedWildcardValues`: every current value that is a sequence is
expanded element by element; other current values are dropped. -/
def collectStep (seg : String) (isLast : Bool) (vals : List Node) : List Node :=
  vals.foldl
    (fun acc cv =>
      match cv with
      | .arr es _ => es.foldl (fun acc2 item => acc2 ++ itemContribution seg isLast item) acc
      | _ => acc)
    []

/-- The loop of `getNestedWildcardValues` over the segments after the
first one, with the early exit on an empty intermediate result. -/
def collectLoop (vals : List Node) : List String → List Node
  | [] => vals
  | seg :: rest =>
      let newVals := collectStep seg rest.isEmpty vals
      if newVals.isEmpty then newVals else collectLoop newVals rest

/-- `getNestedWildcardValues` — resolve a path with two or more
wildcards to the flat list of values it denotes. -/
def getNestedWildcardValues (obj : Node) (path : String) : List Node :=
  if !obj.truthy || !obj.typeofObject then []
  else
    match splitPathByWildcards path with
    | [] => [obj]
    | s0 :: rest =>
        if s0 = "" then collectLoop [obj] rest
        else
          match getValueByPath obj s0 with
          | .undef => []
          | .vnull => []
          | nextObj => collectLoop [nextObj] rest

/-- `WildcardArrayPathHandler.getNestedValue` — dispatch between the
multi-wildcard, top-level-array and nested single-wildcard readers. -/
def getNestedValue (obj : Node) (path : String) : Node :=
  if !obj.truthy || path = "" || !obj.typeofObject then .undef
  else if hasNestedWildcards path then .arr (getNestedWildcardValues obj path) []
  else if isTopLevelArrayPath path then getValueFromTopLevelArray obj path
  else getValueFromNestedPath obj path

end WildcardArrayPathHandler

/-! ## WildcardArrayPathHandler — writes -/

namespace WildcardArrayPathHandler

/-- `ensureParentObject` fused with a continuation: walk the dotted chain,
creating `{}` at `undefined` slots and descending into whatever else is
stored, apply `f` to the node at the end of the chain and rebuild the
tree around its result (the JS mutates in place and returns the inner
reference).  Reaching a `null`, `undefined` or primitive node with chain
segments left dereferences or assigns on a non-object and throws
(`none`). -/
def ensureApply (cur : Node) (parts : List String) (f : Node → Option Node) :
    Option Node :=
  match parts with
  | [] => f cur
  | p :: ps =>
      match cur with
      | .obj _ | .arr _ _ =>
          (ensureApply
            (match cur.getField p with
             | .undef => Node.obj []
             | child => child) ps f).map (fun c => cur.setField p c)
      | _ => none

/-- The `while (targetArray.length < n) targetArray.push({})` loop,
iterated on the number of missing elements (each push grows the array by
one, so the loop runs exactly `n - es.length` times). -/
def growToAux (es : List Node) : Nat → List Node
  | 0 => es
  | k + 1 => growToAux (es ++ [Node.obj []]) k

def growTo (es : List Node) (n : Nat) : List Node :=
  growToAux es (n - es.length)

/-- The index loop of `setArrayValueToArray`: element `i` receives
`values[i]`, either outright or at the sub-path via `setValueByPath`
(which throws — `none` — on a truthy primitive element or through a
`null`/primitive in the sub-chain). -/
def saLoop (after : String) (vs : List Node) : List Node → Nat → Nat →
    Option (List Node)
  | es, _, 0 => some es
  | es, i, k + 1 =>
    if i < vs.length then
      let es1 := match es.getD i Node.undef with
        | .undef => es.set i (Node.obj [])
        | _ => es
      if after = "" then saLoop after vs (es1.set i (vs.getD i Node.undef)) (i + 1) k
      else
        match setValueByPath (es1.getD i Node.undef) after (vs.getD i Node.undef) with
        | none => none
        | some e' => saLoop after vs (es1.set i e') (i + 1) k
    else some es

/-- `setArrayValueToArray` — scatter a sequence value over the target
sequence, growing it with empty containers first. -/
def setArrayValueToArray (es : List Node) (after : String) (vs : List Node) :
    Option (List Node) :=
  saLoop after vs (growTo es vs.length) 0 vs.length

/-- The index loop of `setSingleValueToArray`: `undefined`/`null`
elements are first replaced by `{}`; with a sub-path, only elements that
are non-null objects are written into (others are left untouched);
without one, every element is replaced by the value. -/
def sbLoop (after : String) (v : Node) : List Node → Nat → Nat →
    Option (List Node)
  | es, _, 0 => some es
  | es, i, k + 1 =>
    if i < es.length then
      let es1 := match es.getD i Node.undef with
        | .undef => es.set i (Node.obj [])
        | .vnull => es.set i (Node.obj [])
        | _ => es
      if after = "" then sbLoop after v (es1.set i v) (i + 1) k
      else
        match es1.getD i Node.undef with
        | .obj fs =>
            match setValueByPath (Node.obj fs) after v with
            | none => none
            | some e' => sbLoop after v (es1.set i e') (i + 1) k
        | .arr a b =>
            match setValueByPath (Node.arr a b) after v with
            | none => none
            | some e' => sbLoop after v (es1.set i e') (i + 1) k
        | _ => sbLoop after v es1 (i + 1) k
    else some es

/-- `setSingleValueToArray` — broadcast a single value over the target
sequence, seeding one empty container when it is empty. -/
def setSingleValueToArray (es : List Node) (after : String) (v : Node) :
    Option (List Node) :=
  sbLoop after v (if es.isEmpty then [Node.obj []] else es) 0
    (if es.isEmpty then [Node.obj []] else es).length

/-- `setValueWithWildcard` — the single-wildcard writer: resolve/create
the parent of the array field, replace a non-array value there by `[]`,
then scatter or broadcast. -/
def setValueWithWildcard (obj : Node) (path : String) (v : Node) :
    Option (Bool × Node) :=
  let pr := parsePath path
  let beforeParts := if pr.beforeArray = "" then [] else splitChar '.' pr.beforeArray
  (ensureApply obj beforeParts (fun parent =>
    match parent with
    | .obj _ | .arr _ _ =>
        let arr0 := match parent.getField pr.arrayPath with
          | .arr es ps => (es, ps)
          | _ => ([], [])
        (match v with
         | .arr ves _ => setArrayValueToArray arr0.1 pr.afterArray ves
         | single => setSingleValueToArray arr0.1 pr.afterArray single).map
          (fun es' => parent.setField pr.arrayPath (.arr es' arr0.2))
    | _ => none)).map (fun root => (true, root))

def joinDot (parts : List String) : String := String.intercalate "." parts

/-!
`setupNestedWildcardPath` — the recursive multi-wildcard writer used when
the value is not a sequence (and its navigation helper).  The JS resolves
`currentSegment` with `getValueByPath` and falls back to
`ensureParentObject` when the result is falsy; both walk the same dotted
chain, so the fused walk of `setupNav` (create `{}` at `undefined`,
descend into anything else, throw on a non-object with segments left)
reaches the same node.  The boolean result of the JS recursion is
discarded at every call site, so only the mutated tree is returned.
-/

mutual

/-- `setupNestedWildcardPath(node, segments, i, v)` for the segment
suffix starting at `i`; fewer than two remaining segments is the
`currentIndex >= segments.length - 1` early return (no mutation). -/
def setupNWP : List String → Node → Node → Option Node
  | cur :: next :: rest, node, v =>
      if cur = "" then setupBody next rest node v
      else setupNav (splitChar '.' cur) node next rest v
  | _, node, _ => some node
termination_by segs _ _ => (segs.length, 2, 0)

/-- Navigation to `currentSegment`'s node (see the comment above), then
the per-level body, rebuilding the tree around the mutation. -/
def setupNav : List String → Node → String → List String → Node → Option Node
  | [], node, next, rest, v => setupBody next rest node v
  | p :: ps, node, next, rest, v =>
      match node with
      | .obj _ | .arr _ _ =>
          (setupNav ps
            (match node.getField p with
             | .undef => Node.obj []
             | child => child) next rest v).map (fun c => node.setField p c)
      | _ => none
termination_by parts _ _ rest _ => (rest.length + 2, 1, parts.length + 1)

/-- One level of `setupNestedWildcardPath` at `currentObj`: ensure the
array named by the head of the next segment, then either apply the
scatter/broadcast writers (at the next-to-last segment) or recurse over
the elements. -/
def setupBody (next : String) (rest : List String) (current v : Node) :
    Option Node :=
  match current with
  | .obj _ | .arr _ _ =>
      let arrayNameParts := splitChar '.' next
      let arrayName := arrayNameParts.headD ""
      let arr0 := match current.getField arrayName with
        | .arr es ps => (es, ps)
        | _ => (([] : List Node), ([] : List (String × Node)))
      match rest with
      | [] =>
          let propertyPath :=
            if strContains next "." then dropStr next (arrayName.length + 1) else ""
          (match v with
           | .arr ves _ => setArrayValueToArray arr0.1 propertyPath ves
           | single => setSingleValueToArray arr0.1 propertyPath single).map
            (fun es' => current.setField arrayName (.arr es' arr0.2))
      | r0 :: rs =>
          let restPath := joinDot arrayNameParts.tail
          let es0 := if arr0.1.isEmpty then [Node.obj []] else arr0.1
          match nestLoop next r0 rs restPath v es0 0 0 with
          | none => none
          | some es1di =>
              match (match v with
                     | .arr ves _ =>
                         appendLoop next r0 rs restPath ves es1di.1 es1di.2
                     | _ => some es1di.1) with
              | none => none
              | some es2 => some (current.setField arrayName (.arr es2 arr0.2))
  | _ => none
termination_by (rest.length + 2, 1, 0)

/-- The loop over the existing elements of the current level's array:
coerce `undefined`/`null` elements to `{}`, pre-create the rest of the
segment's dotted chain inside the element, pick the next value (advancing
the data index only while distributing a sequence), and recurse one
wildcard level deeper. -/
def nestLoop (next r0 : String) (rs : List String) (restPath : String)
    (v : Node) (es : List Node) (i di : Nat) : Option (List Node × Nat) :=
  if i < es.length then
    let e0 := es.getD i Node.undef
    let e1 := match e0 with
      | .undef => Node.obj []
      | .vnull => Node.obj []
      | x => x
    match (if restPath = "" then some e1
           else ensureApply e1 (splitChar '.' restPath) some) with
    | none => none
    | some e2 =>
        let step : Node × Nat := match v with
          | .arr ves _ =>
              if di < ves.length then (ves.getD di Node.undef, di + 1) else (v, di)
          | _ => (v, di)
        match setupNWP (next :: r0 :: rs) e2 step.1 with
        | none => none
        | some e3 => nestLoop next r0 rs restPath v (es.set i e3) (i + 1) step.2
  else some (es, di)
termination_by (rs.length + 3, 0, es.length - i)

/-- The second loop of the intermediate level: when the value is a
sequence with items left, append fresh elements and recurse into each
with its item. -/
def appendLoop (next r0 : String) (rs : List String) (restPath : String)
    (ves : List Node) (es : List Node) (j : Nat) : Option (List Node) :=
  if j < ves.length then
    match (if restPath = "" then some (Node.obj [])
           else ensureApply (Node.obj []) (splitChar '.' restPath) some) with
    | none => none
    | some e1 =>
        match setupNWP (next :: r0 :: rs) e1 (ves.getD j Node.undef) with
        | none => none
        | some e2 => appendLoop next r0 rs restPath ves (es ++ [e2]) (j + 1)
  else some es
termination_by (rs.length + 3, 0, ves.length - j)

end

/-- `setValueWithNestedWildcards` — entry of the recursive multi-wildcard
writer: pre-create the chain of the first segment, run the recursion
there, and report `true`. -/
def setValueWithNestedWildcards (obj : Node) (path : String) (v : Node) :
    Option (Bool × Node) :=
  match splitPathByWildcards path with
  | [] => some (false, obj)
  | s0 :: rest =>
      if s0 = "" then (setupNWP (s0 :: rest) obj v).map (fun o' => (true, o'))
      else
        (ensureApply obj (splitChar '.' s0)
          (fun c => setupNWP (s0 :: rest) c v)).map (fun o' => (true, o'))

/-! ## WildcardArrayPathHandler — rectangular fill for multi-wildcard
target paths with a sequence value -/

/-- Floor square root by bounded search: the largest `r ≤ fuel` with
`r * r ≤ n` (with `fuel = n` this is the usual floor square root). -/
def sqrtLoop (n : Nat) : Nat → Nat
  | 0 => 0
  | k + 1 =>
      let r := sqrtLoop n k
      if (r + 1) * (r + 1) ≤ n then r + 1 else r

def natSqrt (n : Nat) : Nat := sqrtLoop n n

/-- `Math.ceil(Math.sqrt(n))` (exact on naturals; the JS float
computation is exact for every realistic length). -/
def csqrt (n : Nat) : Nat :=
  if natSqrt n * natSqrt n = n then natSqrt n else natSqrt n + 1

/-- `Math.ceil(a / b)` for `b > 0`. -/
def ceilDiv (a b : Nat) : Nat := (a + b - 1) / b

/-- A JS `for (i = 0; i < bound; i++)` loop that rewrites element `i` of
an array in place, iterated on the remaining count `bound - i`. -/
def idxLoopAux (tf : Nat → Node → Node) (bound : Nat) : List Node → Nat → Nat →
    List Node
  | es, _, 0 => es
  | es, i, k + 1 =>
      if i < bound then
        idxLoopAux tf bound (es.set i (tf i (es.getD i Node.undef))) (i + 1) k
      else es

def idxLoop (tf : Nat → Node → Node) (bound : Nat) (es : List Node) (i : Nat) :
    List Node :=
  idxLoopAux tf bound es i (bound - i)

/-- The same index loop over a non-array object (reached when a truthy
non-array value sits where the outer array is expected: JS then reads and
writes properties named `"0"`, `"1"`, … on it, and `.length` is
`undefined`, so the grow loop is skipped). -/
def objIdxLoopAux (tf : Nat → Node → Node) (bound : Nat) : Node → Nat → Nat →
    Node
  | o, _, 0 => o
  | o, i, k + 1 =>
      if i < bound then
        objIdxLoopAux tf bound
          (o.setField (Nat.repr i) (tf i (o.getField (Nat.repr i)))) (i + 1) k
      else o

def objIdxLoop (tf : Nat → Node → Node) (bound : Nat) (o : Node) (i : Nat) :
    Node :=
  objIdxLoopAux tf bound o i (bound - i)

/-- The inner-array loop body of `setNestedWildcardTargetValue`: coerce a
falsy or non-object slot `j` to `{}`, then, when an inner property name
exists and the row-major index is within the value, set it. -/
def innerTf (i innerSize : Nat) (innerProp : String) (vs : List Node)
    (j : Nat) (e : Node) : Node :=
  let e1 := if !e.truthy || !e.typeofObject then Node.obj [] else e
  if innerProp ≠ "" ∧ i * innerSize + j < vs.length then
    e1.setField innerProp (vs.getD (i * innerSize + j) Node.undef)
  else e1

/-- The outer-array loop body of `setNestedWildcardTargetValue`: coerce a
falsy or non-object slot to `{}`; with an outer property and an in-range
index, set it and continue; otherwise ensure the inner array, grow it to
`innerSize` and run the inner loop. -/
def outerTf (outerProp innerName innerProp : String) (innerSize : Nat)
    (vs : List Node) (i : Nat) (e : Node) : Node :=
  let e1 := if !e.truthy || !e.typeofObject then Node.obj [] else e
  if outerProp ≠ "" ∧ i < vs.length then
    e1.setField outerProp (vs.getD i Node.undef)
  else if innerName ≠ "" then
    let inner0 := match e1.getField innerName with
      | .arr a b => (a, b)
      | _ => (([] : List Node), ([] : List (String × Node)))
    let ies := growTo inner0.1 innerSize
    e1.setField innerName (.arr (idxLoop (innerTf i innerSize innerProp vs) innerSize ies 0) inner0.2)
  else e1

/-- `setNestedWildcardTargetValue` — the documented special case: wrap a
non-array value in a one-element array, then distribute the value
row-major over a `ceil(sqrt N) × ceil(N / outer)` grid of containers
(`2 × 2` for an empty value), creating outer/inner entries as needed.
`none` where the JS dereferences or assigns on a primitive (strict-mode
`TypeError`). -/
def setNestedWildcardTargetValue (obj : Node) (path : String) (v : Node) :
    Option (Bool × Node) :=
  let vs := match v with
    | .arr es _ => es
    | x => [x]
  let pp := parsePathForNestedWildcards path
  let rootStep : Option (Node × (Node → Node)) :=
    match pp.rootObject with
    | none => some (obj, fun c => c)
    | some r =>
        match obj with
        | .obj _ | .arr _ _ =>
            let c0 := obj.getField r
            if !c0.truthy then some (Node.obj [], fun c => obj.setField r c)
            else some (c0, fun c => obj.setField r c)
        | _ => none
  match rootStep with
  | none => none
  | some cr =>
      match pp.outerArray with
      | none => some (false, cr.2 cr.1)
      | some outerName =>
          match cr.1 with
          | .obj _ | .arr _ _ =>
              let current1 :=
                if !(cr.1.getField outerName).truthy then
                  cr.1.setField outerName (.arr [] [])
                else cr.1
              let n := vs.length
              let outerSize := if n > 0 then csqrt n else 2
              let innerSize := if n > 0 then ceilDiv n outerSize else 2
              let innerName := (pp.innerArray).getD ""
              let outerProp := (pp.outerProperty).getD ""
              let innerProp := (pp.innerProperty).getD ""
              let tf := outerTf outerProp innerName innerProp innerSize vs
              match current1.getField outerName with
              | .arr es ps =>
                  let es1 := growTo es outerSize
                  some (true, cr.2 (current1.setField outerName (.arr (idxLoop tf outerSize es1 0) ps)))
              | .obj fs =>
                  some (true, cr.2 (current1.setField outerName (objIdxLoop tf outerSize (Node.obj fs) 0)))
              | _ => none
          | _ => none

/-- `isTargetNestedWildcardPath` — more than one wildcard and an array
value select the rectangular fill. -/
def isTargetNestedWildcardPath (path : String) (v : Node) : Bool :=
  decide (1 < countWildcards path) && v.isArrayB

/-- `WildcardArrayPathHandler.setNestedValue` — policy gate, then
dispatch between the rectangular fill, the recursive multi-wildcard
writer and the single-wildcard writer; a wildcard-free path is refused. -/
def setNestedValue (obj : Node) (path : String) (v : Node) (o : ValueOptions) :
    Option (Bool × Node) :=
  if shouldSkipValue v o then some (false, obj)
  else if containsWildcard path then
    if hasNestedWildcards path then
      if isTargetNestedWildcardPath path v then
        setNestedWildcardTargetValue obj path v
      else setValueWithNestedWildcards obj path v
    else setValueWithWildcard obj path v
  else some (false, obj)

end WildcardArrayPathHandler

/-! ## PathProcessor — path-kind dispatch

`detectPathType` classifies a path as `WILDCARD_ARRAY` when it contains
`[*]` and as `NESTED_OBJECT` otherwise (with or without dots), and the
two handlers above are registered for those kinds. -/

namespace PathProcessor

/-- `PathProcessor.getNestedValue` with both handlers registered. -/
def getNestedValue (obj : Node) (path : String) : Node :=
  if containsWildcard path then WildcardArrayPathHandler.getNestedValue obj path
  else NestedObjectPathHandler.getNestedValue obj path

/-- `PathProcessor.setNestedValue` with both handlers registered; the
plain handler never throws, so its result is wrapped in `some`. -/
def setNestedValue (obj : Node) (path : String) (v : Node) (o : ValueOptions) :
    Option (Bool × Node) :=
  if containsWildcard path then WildcardArrayPathHandler.setNestedValue obj path v o
  else some (NestedObjectPathHandler.setNestedValue obj path v o)

end PathProcessor

/-! ## Specification-side definitions

Predicates and reference functions used to *state* the claims; the
theorems below compare them with the handler embeddings above. -/

/-- The first traversed plain-write slot that can be neither descended
into nor created over: a `null` (ExplicitNull) or a primitive.  `none`
when the walk only meets missing, object or array slots. -/
def abortSlot : Node → List String → Option Node
  | _, [] => none
  | cur, p :: ps =>
      match cur.getField p with
      | .undef => none
      | .vnull => some .vnull
      | .scalar s => some (.scalar s)
      | child => abortSlot child ps

/-- Every traversed slot of the plain write already exists and is an
object or array (what strict mode requires to proceed). -/
def strictOk : Node → List String → Bool
  | _, [] => true
  | cur, p :: ps =>
      match cur.getField p with
      | .undef => false
      | .vnull => false
      | .scalar _ => false
      | child => strictOk child ps

/-- The plain write as the spec words it: walk all but the last segment,
creating an empty container at each missing slot, and set the final
segment to the value. -/
def deepSetSpec : Node → List String → String → Node → Node
  | cur, [], last, v => cur.setField last v
  | cur, p :: ps, last, v =>
      match cur.getField p with
      | .undef => cur.setField p (deepSetSpec (Node.obj []) ps last v)
      | child => cur.setField p (deepSetSpec child ps last v)

/-- Per-element behaviour of the broadcast writer as the (amended) spec
words it: a Missing or ExplicitNull element becomes a fresh empty
container; without a sub-path the element is then replaced outright by
the value; with one, object and array elements are written into at the
sub-path while other elements are left unchanged. -/
def broadcastEltSpec (after : String) (v : Node) (e : Node) : Option Node :=
  let e1 := match e with
    | .undef => Node.obj []
    | .vnull => Node.obj []
    | x => x
  if after = "" then some v
  else
    match e1 with
    | .obj _ | .arr _ _ => setValueByPath e1 after v
    | _ => some e1

/-- Elementwise effectful map over a node list (the reference shape of
the broadcast loop). -/
def optionMapList (f : Node → Option Node) : List Node → Option (List Node)
  | [] => some []
  | e :: es =>
      match f e with
      | none => none
      | some e' => (optionMapList f es).map (e' :: ·)

/-- The rectangular grid the spec describes for a double-wildcard write
of the sequence `vs` at `g[*].items[*].v` into a fresh tree:
`outer = ceil(sqrt N)` outer entries (`2` for an empty value), each with
`inner = ceil(N / outer)` inner containers, the row-major prefix of which
carry `v := vs[i*inner + j]`. -/
def gridSpec (vs : List Node) : Node :=
  let n := vs.length
  let outer := if n > 0 then WildcardArrayPathHandler.csqrt n else 2
  let inner := if n > 0 then WildcardArrayPathHandler.ceilDiv n outer else 2
  Node.obj [("g",
    Node.arr ((List.range outer).map fun i =>
      Node.obj [("items",
        Node.arr ((List.range inner).map fun j =>
          if i * inner + j < n then
            Node.obj [("v", vs.getD (i * inner + j) Node.undef)]
          else Node.obj []) [])]) [])]

/-- Recursively duplicate-free field names, the well-formedness invariant
of trees that model JS objects (a JS object cannot carry one key twice). -/
def nodupNode : Node → Bool
  | .obj fs => nodupFields fs
  | .arr es ps => nodupElems es && nodupFields ps
  | _ => true
where
  nodupFields : List (String × Node) → Bool
    | [] => true
    | (k, v) :: fs =>
        !(fs.any (fun kv => kv.1 == k)) && nodupNode v && nodupFields fs
  nodupElems : List Node → Bool
    | [] => true
    | e :: es => nodupNode e && nodupElems es

/-! ## Basic lemmas about field access -/

theorem lookupFields_setFields (fs : List (String × Node)) (k : String) (v : Node) :
    Node.lookupFields (Node.setFields fs k v) k = v := by
  induction fs with
  | nil => simp [Node.setFields, Node.lookupFields]
  | cons kv rest ih =>
      obtain ⟨k', w⟩ := kv
      by_cases hk : k' = k
      · simp [Node.setFields, Node.lookupFields, hk]
      · simp [Node.setFields, Node.lookupFields, hk, ih]

theorem setFields_lookup_self (fs : List (String × Node)) (k : String)
    (h : Node.lookupFields fs k ≠ Node.undef) :
    Node.setFields fs k (Node.lookupFields fs k) = fs := by
  induction fs with
  | nil => simp [Node.lookupFields] at h
  | cons kv rest ih =>
      obtain ⟨k', w⟩ := kv
      by_cases hk : k' = k
      · simp [Node.lookupFields, Node.setFields, hk]
      · simp [Node.lookupFields, hk] at h
        simp [Node.lookupFields, Node.setFields, hk, ih h]

theorem Node.getField_setField (cur : Node) (p : String) (v : Node)
    (h : cur.objLike = true) : (cur.setField p v).getField p = v := by
  cases cur <;> simp_all [Node.objLike, Node.setField, Node.getField,
    lookupFields_setFields]

theorem Node.setField_getField_self (cur : Node) (p : String)
    (h : cur.getField p ≠ Node.undef) : cur.setField p (cur.getField p) = cur := by
  cases cur <;> simp_all [Node.getField, Node.setField, setFields_lookup_self]

theorem Node.objLike_setField (cur : Node) (p : String) (v : Node)
    (h : cur.objLike = true) : (cur.setField p v).objLike = true := by
  cases cur <;> simp_all [Node.objLike, Node.setField]

theorem Node.truthy_of_objLike (n : Node) (h : n.objLike = true) :
    n.truthy = true := by
  cases n <;> simp_all [Node.objLike, Node.truthy]

theorem readStep_eq_getField (n : Node) (p : String) (h : n.objLike = true) :
    readStep n p = n.getField p := by
  cases n <;> simp_all [Node.objLike, readStep]

/-! ## Lemmas about the plain read walk -/

theorem walkRead_append (obj : Node) (ps qs : List String) :
    walkRead obj (ps ++ qs) = walkRead (walkRead obj ps) qs := by
  simp [walkRead, List.foldl_append]

theorem walkRead_undef (qs : List String) : walkRead Node.undef qs = Node.undef := by
  induction qs with
  | nil => rfl
  | cons q rest ih => simpa [walkRead, readStep] using ih

theorem walkRead_vnull (qs : List String) : walkRead Node.vnull qs = Node.vnull := by
  induction qs with
  | nil => rfl
  | cons q rest ih => simpa [walkRead, readStep] using ih

theorem walkRead_scalar (s : String) (q : String) (qs : List String) :
    walkRead (Node.scalar s) (q :: qs) = Node.undef := by
  simpa [walkRead, readStep, Node.getField] using walkRead_undef qs

/-! ## Lemmas about the plain write walk -/

theorem walkSet_abort (parts : List String) :
    ∀ (cur : Node) (x : Node) (last : String) (v : Node) (strict : Bool),
    abortSlot cur parts = some x →
    NestedObjectPathHandler.walkSet cur parts last v strict = (false, cur) := by
  induction parts with
  | nil => intro cur x last v strict h; simp [abortSlot] at h
  | cons p ps ih =>
      intro cur x last v strict h
      rw [abortSlot] at h
      rw [NestedObjectPathHandler.walkSet]
      cases hg : cur.getField p with
      | undef => rw [hg] at h; simp at h
      | vnull => rfl
      | scalar s => rfl
      | obj fs =>
          rw [hg] at h
          have h' : abortSlot (Node.obj fs) ps = some x := h
          have hself : cur.setField p (Node.obj fs) = cur := by
            have hs := Node.setField_getField_self cur p
              (by rw [hg]; intro hc; cases hc)
            rwa [hg] at hs
          simp only [ih _ x last v strict h', hself]
      | arr es qs =>
          rw [hg] at h
          have h' : abortSlot (Node.arr es qs) ps = some x := h
          have hself : cur.setField p (Node.arr es qs) = cur := by
            have hs := Node.setField_getField_self cur p
              (by rw [hg]; intro hc; cases hc)
            rwa [hg] at hs
          simp only [ih _ x last v strict h', hself]

theorem walkSet_ok (parts : List String) :
    ∀ (cur : Node) (last : String) (v : Node),
    abortSlot cur parts = none →
    NestedObjectPathHandler.walkSet cur parts last v false =
      (true, deepSetSpec cur parts last v) := by
  induction parts with
  | nil => intro cur last v _; rfl
  | cons p ps ih =>
      intro cur last v h
      rw [abortSlot] at h
      rw [NestedObjectPathHandler.walkSet, deepSetSpec]
      cases hg : cur.getField p with
      | undef =>
          have hfresh : abortSlot (Node.obj []) ps = none := by
            cases ps <;> simp [abortSlot, Node.getField, Node.lookupFields]
          simp [ih _ last v hfresh]
      | vnull => rw [hg] at h; simp at h
      | scalar s => rw [hg] at h; simp at h
      | obj fs =>
          rw [hg] at h
          have h' : abortSlot (Node.obj fs) ps = none := h
          simp [ih _ last v h']
      | arr es qs =>
          rw [hg] at h
          have h' : abortSlot (Node.arr es qs) ps = none := h
          simp [ih _ last v h']

theorem walkSet_strictOk (parts : List String) :
    ∀ (cur : Node) (last : String) (v : Node),
    strictOk cur parts = true →
    NestedObjectPathHandler.walkSet cur parts last v true =
      (true, deepSetSpec cur parts last v) := by
  induction parts with
  | nil => intro cur last v _; rfl
  | cons p ps ih =>
      intro cur last v h
      rw [strictOk] at h
      rw [NestedObjectPathHandler.walkSet, deepSetSpec]
      cases hg : cur.getField p with
      | undef => rw [hg] at h; simp at h
      | vnull => rw [hg] at h; simp at h
      | scalar s => rw [hg] at h; simp at h
      | obj fs =>
          rw [hg] at h
          have h' : strictOk (Node.obj fs) ps = true := h
          simp [ih _ last v h']
      | arr es qs =>
          rw [hg] at h
          have h' : strictOk (Node.arr es qs) ps = true := h
          simp [ih _ last v h']

theorem walkSet_strictFail (parts : List String) :
    ∀ (cur : Node) (last : String) (v : Node),
    strictOk cur parts = false →
    NestedObjectPathHandler.walkSet cur parts last v true = (false, cur) := by
  induction parts with
  | nil => intro cur last v h; simp [strictOk] at h
  | cons p ps ih =>
      intro cur last v h
      rw [strictOk] at h
      rw [NestedObjectPathHandler.walkSet]
      cases hg : cur.getField p with
      | undef => rfl
      | vnull => rfl
      | scalar s => rfl
      | obj fs =>
          rw [hg] at h
          have h' : strictOk (Node.obj fs) ps = false := h
          have hself : cur.setField p (Node.obj fs) = cur := by
            have hs := Node.setField_getField_self cur p
              (by rw [hg]; intro hc; cases hc)
            rwa [hg] at hs
          simp only [ih _ last v h', hself]
      | arr es qs =>
          rw [hg] at h
          have h' : strictOk (Node.arr es qs) ps = false := h
          have hself : cur.setField p (Node.arr es qs) = cur := by
            have hs := Node.setField_getField_self cur p
              (by rw [hg]; intro hc; cases hc)
            rwa [hg] at hs
          simp only [ih _ last v h', hself]

theorem walkSet_read (parts : List String) :
    ∀ (cur : Node) (last : String) (v : Node) (strict : Bool) (t : Node),
    cur.objLike = true →
    NestedObjectPathHandler.walkSet cur parts last v strict = (true, t) →
    t.objLike = true ∧ walkRead t (parts ++ [last]) = v := by
  induction parts with
  | nil =>
      intro cur last v strict t hobj hw
      rw [NestedObjectPathHandler.walkSet] at hw
      have ht : cur.setField last v = t := congrArg Prod.snd hw
      subst ht
      refine ⟨Node.objLike_setField _ _ _ hobj, ?_⟩
      have h2 := Node.objLike_setField cur last v hobj
      simp [walkRead, readStep_eq_getField _ _ h2, Node.getField_setField _ _ _ hobj]
  | cons p ps ih =>
      intro cur last v strict t hobj hw
      rw [NestedObjectPathHandler.walkSet] at hw
      cases hg : cur.getField p with
      | undef =>
          rw [hg] at hw
          cases strict with
          | true => simp at hw
          | false =>
              simp only [Bool.false_eq_true, if_false, Prod.mk.injEq] at hw
              obtain ⟨h1, ht⟩ := hw
              have hr := ih (Node.obj []) last v false
                (NestedObjectPathHandler.walkSet (Node.obj []) ps last v false).2
                (by simp [Node.objLike])
                (by rw [← h1])
              subst ht
              refine ⟨Node.objLike_setField _ _ _ hobj, ?_⟩
              have hset := Node.objLike_setField cur p
                (NestedObjectPathHandler.walkSet (Node.obj []) ps last v false).2 hobj
              have hrd : walkRead (cur.setField p
                  (NestedObjectPathHandler.walkSet (Node.obj []) ps last v false).2)
                  ((p :: ps) ++ [last])
                  = walkRead (readStep (cur.setField p
                    (NestedObjectPathHandler.walkSet (Node.obj []) ps last v false).2) p)
                    (ps ++ [last]) := rfl
              rw [hrd, readStep_eq_getField _ _ hset,
                  Node.getField_setField _ _ _ hobj]
              exact hr.2
      | vnull => rw [hg] at hw; simp at hw
      | scalar s => rw [hg] at hw; simp at hw
      | obj fs =>
          rw [hg] at hw
          simp only [Prod.mk.injEq] at hw
          obtain ⟨h1, ht⟩ := hw
          have hr := ih (Node.obj fs) last v strict
            (NestedObjectPathHandler.walkSet (Node.obj fs) ps last v strict).2
            (by simp [Node.objLike]) (by rw [← h1])
          subst ht
          refine ⟨Node.objLike_setField _ _ _ hobj, ?_⟩
          have hset := Node.objLike_setField cur p
            (NestedObjectPathHandler.walkSet (Node.obj fs) ps last v strict).2 hobj
          have hrd : walkRead (cur.setField p
              (NestedObjectPathHandler.walkSet (Node.obj fs) ps last v strict).2)
              ((p :: ps) ++ [last])
              = walkRead (readStep (cur.setField p
                (NestedObjectPathHandler.walkSet (Node.obj fs) ps last v strict).2) p)
                (ps ++ [last]) := rfl
          rw [hrd, readStep_eq_getField _ _ hset,
              Node.getField_setField _ _ _ hobj]
          exact hr.2
      | arr es qs =>
          rw [hg] at hw
          simp only [Prod.mk.injEq] at hw
          obtain ⟨h1, ht⟩ := hw
          have hr := ih (Node.arr es qs) last v strict
            (NestedObjectPathHandler.walkSet (Node.arr es qs) ps last v strict).2
            (by simp [Node.objLike]) (by rw [← h1])
          subst ht
          refine ⟨Node.objLike_setField _ _ _ hobj, ?_⟩
          have hset := Node.objLike_setField cur p
            (NestedObjectPathHandler.walkSet (Node.arr es qs) ps last v strict).2 hobj
          have hrd : walkRead (cur.setField p
              (NestedObjectPathHandler.walkSet (Node.arr es qs) ps last v strict).2)
              ((p :: ps) ++ [last])
              = walkRead (readStep (cur.setField p
                (NestedObjectPathHandler.walkSet (Node.arr es qs) ps last v strict).2) p)
                (ps ++ [last]) := rfl
          rw [hrd, readStep_eq_getField _ _ hset,
              Node.getField_setField _ _ _ hobj]
          exact hr.2

/-! ## Bridging lemmas for the plain writer -/

theorem shouldSkipValue_noOptions (v : Node) :
    shouldSkipValue v noOptions = false := by
  simp [shouldSkipValue, noOptions]

theorem dropLast_append_of_getLast : ∀ (l : List String) (a : String),
    l.getLast? = some a → l.dropLast ++ [a] = l
  | [], a, h => by simp at h
  | [b], a, h => by
      simp [List.getLast?] at h
      simp [h]
  | b :: c :: rest, a, h => by
      have h' : (c :: rest).getLast? = some a := by
        simpa [List.getLast?] using h
      have := dropLast_append_of_getLast (c :: rest) a h'
      simpa [List.dropLast] using this

/-- Under the guards of the plain writer, `setNestedValue` is exactly the
creation walk over all but the last segment. -/
theorem setNestedValue_eq_walkSet (obj : Node) (path : String) (v : Node)
    (o : ValueOptions) (last : String)
    (htr : obj.truthy = true) (hskip : shouldSkipValue v o = false)
    (hlast : (splitChar '.' path).getLast? = some last) (hne : last ≠ "")
    (hp : path ≠ "") :
    NestedObjectPathHandler.setNestedValue obj path v o =
      NestedObjectPathHandler.walkSet obj (splitChar '.' path).dropLast last v
        o.strict := by
  rw [NestedObjectPathHandler.setNestedValue]
  rw [if_neg (by simp [htr, hp]), if_neg (by simp [hskip]), hlast]
  simp [hne]

/-! ## Claim C1 — the policy gate -/

/-- C1: for every target tree, path, value and policy, the write returns
`false` and performs no mutation when the value is ExplicitNull with
`skipNull` set and `preserveNull` unset, or the value is Missing with
`skipUndefined` set, or `strict` is set and the value is Missing or is
ExplicitNull without `preserveNull`; and with both `skipNull` and
`preserveNull` set an ExplicitNull write is not rejected by this gate. -/
theorem claim1_policy_gate :
    (∀ (obj : Node) (path : String) (v : Node) (o : ValueOptions),
      ((v = Node.vnull ∧ o.skipNull = true ∧ o.preserveNull = false) ∨
       (v = Node.undef ∧ o.skipUndefined = true) ∨
       (o.strict = true ∧
         (v = Node.undef ∨ (v = Node.vnull ∧ o.preserveNull = false)))) →
      PathProcessor.setNestedValue obj path v o = some (false, obj)) ∧
    (∀ o : ValueOptions, o.skipNull = true → o.preserveNull = true →
      shouldSkipValue Node.vnull o = false) := by
  constructor
  · intro obj path v o h
    have hskip : shouldSkipValue v o = true := by
      rcases h with ⟨hv, h1, h2⟩ | ⟨hv, h1⟩ | ⟨h1, hv | ⟨hv, h2⟩⟩ <;>
        subst hv <;>
        simp [shouldSkipValue, Node.isNullB, Node.isUndefB, *]
    rw [PathProcessor.setNestedValue]
    split
    · rw [WildcardArrayPathHandler.setNestedValue, if_pos hskip]
    · simp [NestedObjectPathHandler.setNestedValue, hskip]
  · intro o h1 h2
    simp [shouldSkipValue, Node.isNullB, Node.isUndefB, h2]

theorem claim1_policy_gate_witness :
    PathProcessor.setNestedValue (Node.obj []) "a.b" Node.vnull
      ⟨true, false, false, false⟩ = some (false, Node.obj []) ∧
    shouldSkipValue Node.vnull ⟨true, false, true, true⟩ = false :=
  ⟨claim1_policy_gate.1 (Node.obj []) "a.b" Node.vnull ⟨true, false, false, false⟩
      (Or.inl ⟨rfl, rfl, rfl⟩),
   claim1_policy_gate.2 ⟨true, false, true, true⟩ rfl rfl⟩

/-! ## Claim C10 — ExplicitNull intermediates abort the plain write -/

/-- C10: a plain-path write whose traversal reaches a slot holding
ExplicitNull returns `false` and leaves the tree unmutated — the same
outcome as when the slot holds a Scalar — even though ExplicitNull is an
absence state. -/
theorem claim10_null_intermediate (obj : Node) (path : String) (v : Node)
    (o : ValueOptions) :
    (abortSlot obj (splitChar '.' path).dropLast = some Node.vnull →
      NestedObjectPathHandler.setNestedValue obj path v o = (false, obj)) ∧
    (∀ s, abortSlot obj (splitChar '.' path).dropLast = some (Node.scalar s) →
      NestedObjectPathHandler.setNestedValue obj path v o = (false, obj)) := by
  have habort : ∀ x, abortSlot obj (splitChar '.' path).dropLast = some x →
      NestedObjectPathHandler.setNestedValue obj path v o = (false, obj) := by
    intro x hx
    rw [NestedObjectPathHandler.setNestedValue]
    split
    · rfl
    · split
      · rfl
      · cases hlast : (splitChar '.' path).getLast? with
        | none => rfl
        | some last =>
            simp only
            split
            · rfl
            · exact walkSet_abort _ obj x last v o.strict hx
  exact ⟨habort Node.vnull, fun s => habort (Node.scalar s)⟩

theorem claim10_null_intermediate_witness :
    NestedObjectPathHandler.setNestedValue (Node.obj [("a", Node.vnull)]) "a.b"
      (Node.scalar "v") noOptions = (false, Node.obj [("a", Node.vnull)]) ∧
    NestedObjectPathHandler.setNestedValue (Node.obj [("a", Node.scalar "x")]) "a.b"
      (Node.scalar "v") noOptions = (false, Node.obj [("a", Node.scalar "x")]) :=
  ⟨(claim10_null_intermediate (Node.obj [("a", Node.vnull)]) "a.b"
      (Node.scalar "v") noOptions).1 (by decide),
   (claim10_null_intermediate (Node.obj [("a", Node.scalar "x")]) "a.b"
      (Node.scalar "v") noOptions).2 "x" (by decide)⟩

/-! ## Claim C5 — the Writer can raise -/

/-- C5 (code bug): the Writer is not raise-free.  On the tree
`{a: [{x: null}]}` the wildcard write of a value at `a[*].x.y` reaches
`setValueByPath` on the element, whose creation walk dereferences the
`null` stored at `x` — a `TypeError` in JS, `none` in this embedding —
contradicting the spec's "the Writer never raises". -/
theorem claim5_writer_raises :
    PathProcessor.setNestedValue
      (Node.obj [("a", Node.arr [Node.obj [("x", Node.vnull)]] [])])
      "a[*].x.y" (Node.scalar "v") noOptions = none := by decide

/-! ## Claim C3 — plain reads through absent or scalar intermediates -/

/-- C3 (amended): walking a plain path, a Missing or Scalar intermediate
makes the read return Missing, but an ExplicitNull intermediate makes it
return ExplicitNull (the `null` itself), not Missing; the read is a total
function and never raises. -/
theorem claim3_read_walk (obj : Node) (path : String) (ps qs : List String)
    (hsplit : splitChar '.' path = ps ++ qs) (hqs : qs ≠ [])
    (htr : obj.truthy = true) :
    ((walkRead obj ps = Node.undef → getValueByPath obj path = Node.undef) ∧
     (walkRead obj ps = Node.vnull → getValueByPath obj path = Node.vnull) ∧
     (∀ s, walkRead obj ps = Node.scalar s →
        getValueByPath obj path = Node.undef)) := by
  by_cases hp : path = ""
  · subst hp
    have : ps ++ qs = [""] := by simpa [splitChar, splitChar.go] using hsplit.symm
    have hps : ps = [] := by
      cases ps with
      | nil => rfl
      | cons a as =>
          cases as <;> cases qs <;> simp_all
    subst hps
    refine ⟨?_, ?_, ?_⟩
    · intro h; simp [getValueByPath]
    · intro h
      simp only [walkRead, List.foldl_nil] at h
      rw [h] at htr; simp [Node.truthy] at htr
    · intro s h; simp [getValueByPath]
  · have hval : getValueByPath obj path = walkRead (walkRead obj ps) qs := by
      rw [getValueByPath, if_neg (by simp [htr, hp]), hsplit, walkRead_append]
    refine ⟨?_, ?_, ?_⟩
    · intro h; rw [hval, h, walkRead_undef]
    · intro h; rw [hval, h, walkRead_vnull]
    · intro s h
      cases qs with
      | nil => exact absurd rfl hqs
      | cons q qs' => rw [hval, h, walkRead_scalar]

theorem claim3_read_walk_witness :
    getValueByPath (Node.obj [("a", Node.vnull)]) "a.b" = Node.vnull :=
  (claim3_read_walk (Node.obj [("a", Node.vnull)]) "a.b" ["a"] ["b"]
    (by decide) (by decide) (by decide)).2.1 (by decide)

/-- C3 counterexample: the claim says a read whose walk meets an
ExplicitNull intermediate returns Missing; on `{a: null}` the path `a.b`
returns the `null` itself. -/
theorem claim3_read_walk_cex :
    getValueByPath (Node.obj [("a", Node.vnull)]) "a.b" = Node.vnull ∧
    Node.vnull ≠ Node.undef := by decide

/-! ## Claim C2 — plain-path round trip -/

/-- C2 (amended): for a wildcard-free path, a tree and a value that is
neither Missing nor ExplicitNull, *when the write succeeds* (returns
`true`), reading the path from the written tree yields the value. -/
theorem claim2_round_trip (fs : List (String × Node)) (path : String)
    (v : Node) (t : Node)
    (hw : containsWildcard path = false)
    (_hu : v ≠ Node.undef) (_hn : v ≠ Node.vnull)
    (hset : PathProcessor.setNestedValue (Node.obj fs) path v noOptions =
      some (true, t)) :
    PathProcessor.getNestedValue t path = v := by
  rw [PathProcessor.setNestedValue, if_neg (by simp [hw])] at hset
  have hset' : NestedObjectPathHandler.setNestedValue (Node.obj fs) path v
      noOptions = (true, t) := by
    exact Option.some.injEq .. ▸ hset
  rw [NestedObjectPathHandler.setNestedValue] at hset'
  by_cases hp : path = ""
  · simp [hp] at hset'
  · rw [if_neg (by simp [Node.truthy, hp]),
        if_neg (by simp [shouldSkipValue_noOptions])] at hset'
    cases hlast : (splitChar '.' path).getLast? with
    | none => rw [hlast] at hset'; simp at hset'
    | some last =>
        rw [hlast] at hset'
        simp only at hset'
        by_cases hl : last = ""
        · rw [if_pos hl] at hset'; simp at hset'
        · rw [if_neg hl] at hset'
          have hread := walkSet_read ((splitChar '.' path).dropLast)
            (Node.obj fs) last v noOptions.strict t (by simp [Node.objLike])
            hset'
          rw [PathProcessor.getNestedValue, if_neg (by simp [hw]),
              NestedObjectPathHandler.getNestedValue, getValueByPath,
              if_neg (by simp [Node.truthy_of_objLike t hread.1, hp])]
          rw [← dropLast_append_of_getLast (splitChar '.' path) last hlast]
          exact hread.2

theorem claim2_round_trip_witness :
    PathProcessor.getNestedValue
      (Node.obj [("a", Node.obj [("b", Node.scalar "v")])]) "a.b" =
      Node.scalar "v" :=
  claim2_round_trip [] "a.b" (Node.scalar "v")
    (Node.obj [("a", Node.obj [("b", Node.scalar "v")])])
    (by decide) (by decide) (by decide) (by decide)

/-- C2 counterexample: on the tree `{a: "x"}` the write of `"v"` at
`a.b` is rejected (scalar intermediate) and leaves the tree unchanged,
and reading `a.b` then yields Missing, not `"v"` — so the unconditional
round-trip `read(write(T,P,V,{}),P) = V` fails. -/
theorem claim2_round_trip_cex :
    PathProcessor.setNestedValue (Node.obj [("a", Node.scalar "x")]) "a.b"
      (Node.scalar "v") noOptions =
      some (false, Node.obj [("a", Node.scalar "x")]) ∧
    PathProcessor.getNestedValue (Node.obj [("a", Node.scalar "x")]) "a.b" ≠
      Node.scalar "v" := by decide

/-! ## Claim C4 — the plain-path placement walk -/

/-- C4 (amended): a plain-path write that passes the policy gate walks
all but the last segment.  Without `strict`, it creates an empty
container at each Missing slot and returns `true` with the value set at
the final segment, provided every traversed existing slot is a Container
or Sequence; if a traversed slot holds a Scalar or ExplicitNull it
returns `false` without mutating anything (a Sequence slot is walked
into, not aborted).  With `strict`, a Missing slot also aborts without
mutation, and the write succeeds only when the whole chain of slots
already exists as Containers/Sequences. -/
theorem claim4_plain_write (obj : Node) (path : String) (v : Node)
    (o : ValueOptions) (last : String)
    (htr : obj.truthy = true) (hskip : shouldSkipValue v o = false)
    (hlast : (splitChar '.' path).getLast? = some last) (hne : last ≠ "")
    (hp : path ≠ "") :
    ((o.strict = false → abortSlot obj (splitChar '.' path).dropLast = none →
       NestedObjectPathHandler.setNestedValue obj path v o =
         (true, deepSetSpec obj (splitChar '.' path).dropLast last v)) ∧
     (∀ x, abortSlot obj (splitChar '.' path).dropLast = some x →
       NestedObjectPathHandler.setNestedValue obj path v o = (false, obj)) ∧
     (o.strict = true → strictOk obj (splitChar '.' path).dropLast = true →
       NestedObjectPathHandler.setNestedValue obj path v o =
         (true, deepSetSpec obj (splitChar '.' path).dropLast last v)) ∧
     (o.strict = true → strictOk obj (splitChar '.' path).dropLast = false →
       NestedObjectPathHandler.setNestedValue obj path v o = (false, obj))) := by
  have heq := setNestedValue_eq_walkSet obj path v o last htr hskip hlast hne hp
  refine ⟨?_, ?_, ?_, ?_⟩
  · intro hs ha; rw [heq, hs]; exact walkSet_ok _ _ _ _ ha
  · intro x ha; rw [heq]; exact walkSet_abort _ _ x _ _ _ ha
  · intro hs hok; rw [heq, hs]; exact walkSet_strictOk _ _ _ _ hok
  · intro hs hok; rw [heq, hs]; exact walkSet_strictFail _ _ _ _ hok

theorem claim4_plain_write_witness :
    NestedObjectPathHandler.setNestedValue (Node.obj []) "a.b" (Node.scalar "v")
      noOptions =
      (true, deepSetSpec (Node.obj []) (splitChar '.' "a.b").dropLast "b"
        (Node.scalar "v")) :=
  (claim4_plain_write (Node.obj []) "a.b" (Node.scalar "v") noOptions "b"
    (by decide) (by decide) (by decide) (by decide) (by decide)).1 rfl (by decide)

/-- C4 counterexample: with `strict` set, a gate-passing write into an
empty tree does not create the missing intermediate container — it
returns `false` — whereas the claim says the walk creates an empty
Container at each Missing slot and returns `true` under any policy
including strict. -/
theorem claim4_plain_write_cex :
    shouldSkipValue (Node.scalar "v") ⟨false, false, true, false⟩ = false ∧
    NestedObjectPathHandler.setNestedValue (Node.obj []) "a.b" (Node.scalar "v")
      ⟨false, false, true, false⟩ = (false, Node.obj []) := by decide

/-! ## Claim C6 — multi-wildcard reads flatten only the last level -/

/-- C6: in the multi-wildcard read, a Sequence-valued result at a
non-last segment is kept intact as one entry of the next level, and at
the last segment it is spliced elementwise into the output; reading
`g[*].items[*].v` over groups of sizes 2 and 1 yields the single flat
3-element list. -/
theorem claim6_nested_wildcard_read :
    (∀ (seg : String) (item : Node) (es : List Node)
       (ps qs : List (String × Node)),
       item.objLike = true → seg ≠ "" →
       getValueByPath item seg = Node.arr es ps →
       (WildcardArrayPathHandler.collectStep seg false [Node.arr [item] qs] =
          [Node.arr es ps] ∧
        WildcardArrayPathHandler.collectStep seg true [Node.arr [item] qs] =
          es)) ∧
    (PathProcessor.getNestedValue
      (Node.obj [("g", Node.arr [
        Node.obj [("items", Node.arr [Node.obj [("v", Node.scalar "a")],
          Node.obj [("v", Node.scalar "b")]] [])],
        Node.obj [("items", Node.arr [Node.obj [("v", Node.scalar "c")]] [])]] [])])
      "g[*].items[*].v" =
      Node.arr [Node.scalar "a", Node.scalar "b", Node.scalar "c"] []) := by
  constructor
  · intro seg item es ps qs hitem hseg hval
    cases item with
    | obj fs =>
        constructor <;>
          simp [WildcardArrayPathHandler.collectStep,
            WildcardArrayPathHandler.itemContribution, hseg, hval]
    | arr a b =>
        constructor <;>
          simp [WildcardArrayPathHandler.collectStep,
            WildcardArrayPathHandler.itemContribution, hseg, hval]
    | vnull => simp [Node.objLike] at hitem
    | undef => simp [Node.objLike] at hitem
    | scalar s => simp [Node.objLike] at hitem
  · decide

theorem claim6_nested_wildcard_read_witness :
    WildcardArrayPathHandler.collectStep "items" false
      [Node.arr [Node.obj [("items", Node.arr [Node.scalar "x"] [])]] []] =
      [Node.arr [Node.scalar "x"] []] ∧
    WildcardArrayPathHandler.collectStep "items" true
      [Node.arr [Node.obj [("items", Node.arr [Node.scalar "x"] [])]] []] =
      [Node.scalar "x"] :=
  claim6_nested_wildcard_read.1 "items"
    (Node.obj [("items", Node.arr [Node.scalar "x"] [])])
    [Node.scalar "x"] [] [] (by decide) (by decide) (by decide)

/-! ## Claim C7 — single-wildcard broadcast -/

theorem optionMapList_length (f : Node → Option Node) :
    ∀ (l l' : List Node), optionMapList f l = some l' → l'.length = l.length := by
  intro l
  induction l with
  | nil => intro l' h; simp [optionMapList] at h; simp [← h]
  | cons e es ih =>
      intro l' h
      rw [optionMapList] at h
      cases hf : f e with
      | none => rw [hf] at h; simp at h
      | some e' =>
          rw [hf] at h
          cases hrest : optionMapList f es with
          | none => rw [hrest] at h; simp at h
          | some tail =>
              rw [hrest] at h
              have hl : e' :: tail = l' := by simpa using h
              subst hl
              simp [ih tail hrest]

theorem take_set_ge (l : List Node) (i j : Nat) (a : Node) (h : j ≤ i) :
    (l.set i a).take j = l.take j := by
  apply List.ext_getElem?
  intro n
  simp only [List.getElem?_take]
  split
  · exact List.getElem?_set_ne (by omega)
  · rfl

theorem drop_set_lt (l : List Node) (i j : Nat) (a : Node) (h : i < j) :
    (l.set i a).drop j = l.drop j := by
  apply List.ext_getElem?
  intro n
  rw [List.getElem?_drop, List.getElem?_drop]
  exact List.getElem?_set_ne (by omega)

theorem take_succ_getD (l : List Node) (i : Nat) (h : i < l.length) :
    l.take (i + 1) = l.take i ++ [l.getD i Node.undef] := by
  rw [List.take_succ, List.getD_eq_getElem l Node.undef h]
  simp [List.getElem?_eq_getElem h]

theorem getD_set_self (l : List Node) (i : Nat) (a : Node) (h : i < l.length) :
    (l.set i a).getD i Node.undef = a := by
  rw [List.getD_eq_getElem?_getD, List.getElem?_set_self h]
  rfl

theorem optionMapList_cons_some (f : Node → Option Node) (e e' : Node)
    (l : List Node) (hf : f e = some e') :
    optionMapList f (e :: l) = (optionMapList f l).map (e' :: ·) := by
  rw [optionMapList, hf]

theorem optionMapList_cons_none (f : Node → Option Node) (e : Node)
    (l : List Node) (hf : f e = none) :
    optionMapList f (e :: l) = none := by
  rw [optionMapList, hf]

theorem map_cons_assoc (x : Option (List Node)) (pre : List Node) (e : Node) :
    (x.map (e :: ·)).map (fun t => pre ++ t) = x.map (fun t => pre ++ e :: t) := by
  cases x <;> simp

theorem broadcastEltSpec_empty (v e : Node) :
    broadcastEltSpec "" v e = some v := by
  cases e <;> rfl

theorem broadcastEltSpec_undef (after : String) (v : Node) (ha : after ≠ "") :
    broadcastEltSpec after v Node.undef = setValueByPath (Node.obj []) after v := by
  show (if after = "" then some v else setValueByPath (Node.obj []) after v) = _
  rw [if_neg ha]

theorem broadcastEltSpec_vnull (after : String) (v : Node) (ha : after ≠ "") :
    broadcastEltSpec after v Node.vnull = setValueByPath (Node.obj []) after v := by
  show (if after = "" then some v else setValueByPath (Node.obj []) after v) = _
  rw [if_neg ha]

theorem broadcastEltSpec_scalar (after : String) (v : Node) (s : String)
    (ha : after ≠ "") :
    broadcastEltSpec after v (Node.scalar s) = some (Node.scalar s) := by
  show (if after = "" then some v else some (Node.scalar s)) = _
  rw [if_neg ha]

theorem broadcastEltSpec_obj (after : String) (v : Node)
    (fs : List (String × Node)) (ha : after ≠ "") :
    broadcastEltSpec after v (Node.obj fs) =
      setValueByPath (Node.obj fs) after v := by
  show (if after = "" then some v else setValueByPath (Node.obj fs) after v) = _
  rw [if_neg ha]

theorem broadcastEltSpec_arr (after : String) (v : Node) (a : List Node)
    (b : List (String × Node)) (ha : after ≠ "") :
    broadcastEltSpec after v (Node.arr a b) =
      setValueByPath (Node.arr a b) after v := by
  show (if after = "" then some v else setValueByPath (Node.arr a b) after v) = _
  rw [if_neg ha]

/-- One continuation step of the broadcast loop: after writing `e'` into
slot `i`, the loop on the remaining slots produces the reference map of
the untouched tail behind the already-processed prefix. -/
theorem sbLoop_cont (after : String) (v : Node) (k : Nat)
    (ih : ∀ (es : List Node) (i : Nat), i + k = es.length →
      WildcardArrayPathHandler.sbLoop after v es i k =
        (optionMapList (broadcastEltSpec after v) (es.drop i)).map
          (fun t => es.take i ++ t))
    (es : List Node) (i : Nat) (e' : Node) (hi : i < es.length)
    (hik : i + (k + 1) = es.length) :
    WildcardArrayPathHandler.sbLoop after v (es.set i e') (i + 1) k =
      (optionMapList (broadcastEltSpec after v) (es.drop (i + 1))).map
        (fun t => es.take i ++ e' :: t) := by
  rw [ih (es.set i e') (i + 1) (by simp; omega)]
  rw [drop_set_lt _ _ _ _ (Nat.lt_succ_self i)]
  have htake : (es.set i e').take (i + 1) = es.take i ++ [e'] := by
    rw [take_succ_getD _ _ (by simp [hi]), take_set_ge _ _ _ _ (le_refl i),
        getD_set_self _ _ _ hi]
  rw [htake]
  cases optionMapList (broadcastEltSpec after v) (es.drop (i + 1)) <;> simp

/-- The skip step (scalar slot with a sub-path): the loop just moves on,
which is the reference map with the untouched element re-attached. -/
theorem sbLoop_skip (after : String) (v : Node) (k : Nat)
    (ih : ∀ (es : List Node) (i : Nat), i + k = es.length →
      WildcardArrayPathHandler.sbLoop after v es i k =
        (optionMapList (broadcastEltSpec after v) (es.drop i)).map
          (fun t => es.take i ++ t))
    (es : List Node) (i : Nat) (e0 : Node) (hi : i < es.length)
    (hik : i + (k + 1) = es.length) (he : es.getD i Node.undef = e0) :
    WildcardArrayPathHandler.sbLoop after v es (i + 1) k =
      (optionMapList (broadcastEltSpec after v) (es.drop (i + 1))).map
        (fun t => es.take i ++ e0 :: t) := by
  rw [ih es (i + 1) (by omega)]
  rw [take_succ_getD _ _ hi, he]
  cases optionMapList (broadcastEltSpec after v) (es.drop (i + 1)) <;> simp

/-- The broadcast loop equals the per-element reference map. -/
theorem sbLoop_spec :
    ∀ (k : Nat) (es : List Node) (i : Nat) (after : String) (v : Node),
    i + k = es.length →
    WildcardArrayPathHandler.sbLoop after v es i k =
      (optionMapList (broadcastEltSpec after v) (es.drop i)).map
        (fun tail => es.take i ++ tail) := by
  intro k
  induction k with
  | zero =>
      intro es i after v hik
      have hi : i = es.length := by omega
      subst hi
      simp [WildcardArrayPathHandler.sbLoop, List.drop_length, optionMapList,
        List.take_length]
  | succ k ih =>
      intro es i after v hik
      have ih' : ∀ (es : List Node) (i : Nat), i + k = es.length →
          WildcardArrayPathHandler.sbLoop after v es i k =
            (optionMapList (broadcastEltSpec after v) (es.drop i)).map
              (fun t => es.take i ++ t) := fun es i h => ih es i after v h
      have hi : i < es.length := by omega
      have hdrop : es.drop i = es.getD i Node.undef :: es.drop (i + 1) := by
        rw [List.getD_eq_getElem es Node.undef hi]
        exact List.drop_eq_getElem_cons hi
      rw [WildcardArrayPathHandler.sbLoop, if_pos hi]
      cases he : es.getD i Node.undef with
      | undef =>
          rw [he] at hdrop
          by_cases ha : after = ""
          · subst ha
            show WildcardArrayPathHandler.sbLoop "" v
              ((es.set i (Node.obj [])).set i v) (i + 1) k = _
            rw [List.set_set, sbLoop_cont "" v k ih' es i v hi hik, hdrop,
                optionMapList_cons_some _ _ v _ (broadcastEltSpec_empty v _),
                map_cons_assoc]
          · rw [if_neg ha]
            simp only [getD_set_self es i (Node.obj []) hi]
            cases hsv : setValueByPath (Node.obj []) after v with
            | none =>
                rw [hdrop, optionMapList_cons_none _ _ _
                  ((broadcastEltSpec_undef after v ha).trans hsv)]
                rfl
            | some e' =>
                show WildcardArrayPathHandler.sbLoop after v
                  ((es.set i (Node.obj [])).set i e') (i + 1) k = _
                rw [List.set_set, sbLoop_cont after v k ih' es i e' hi hik, hdrop,
                    optionMapList_cons_some _ _ e' _
                      ((broadcastEltSpec_undef after v ha).trans hsv),
                    map_cons_assoc]
      | vnull =>
          rw [he] at hdrop
          by_cases ha : after = ""
          · subst ha
            show WildcardArrayPathHandler.sbLoop "" v
              ((es.set i (Node.obj [])).set i v) (i + 1) k = _
            rw [List.set_set, sbLoop_cont "" v k ih' es i v hi hik, hdrop,
                optionMapList_cons_some _ _ v _ (broadcastEltSpec_empty v _),
                map_cons_assoc]
          · rw [if_neg ha]
            simp only [getD_set_self es i (Node.obj []) hi]
            cases hsv : setValueByPath (Node.obj []) after v with
            | none =>
                rw [hdrop, optionMapList_cons_none _ _ _
                  ((broadcastEltSpec_vnull after v ha).trans hsv)]
                rfl
            | some e' =>
                show WildcardArrayPathHandler.sbLoop after v
                  ((es.set i (Node.obj [])).set i e') (i + 1) k = _
                rw [List.set_set, sbLoop_cont after v k ih' es i e' hi hik, hdrop,
                    optionMapList_cons_some _ _ e' _
                      ((broadcastEltSpec_vnull after v ha).trans hsv),
                    map_cons_assoc]
      | scalar s =>
          rw [he] at hdrop
          by_cases ha : after = ""
          · subst ha
            show WildcardArrayPathHandler.sbLoop "" v (es.set i v) (i + 1) k = _
            rw [sbLoop_cont "" v k ih' es i v hi hik, hdrop,
                optionMapList_cons_some _ _ v _ (broadcastEltSpec_empty v _),
                map_cons_assoc]
          · rw [if_neg ha]
            simp only [he]
            rw [sbLoop_skip after v k ih' es i (Node.scalar s) hi hik he, hdrop,
                optionMapList_cons_some _ _ (Node.scalar s) _
                  (broadcastEltSpec_scalar after v s ha),
                map_cons_assoc]
      | obj fs =>
          rw [he] at hdrop
          by_cases ha : after = ""
          · subst ha
            show WildcardArrayPathHandler.sbLoop "" v (es.set i v) (i + 1) k = _
            rw [sbLoop_cont "" v k ih' es i v hi hik, hdrop,
                optionMapList_cons_some _ _ v _ (broadcastEltSpec_empty v _),
                map_cons_assoc]
          · rw [if_neg ha]
            simp only [he]
            cases hsv : setValueByPath (Node.obj fs) after v with
            | none =>
                rw [hdrop, optionMapList_cons_none _ _ _
                  ((broadcastEltSpec_obj after v fs ha).trans hsv)]
                rfl
            | some e' =>
                show WildcardArrayPathHandler.sbLoop after v (es.set i e')
                  (i + 1) k = _
                rw [sbLoop_cont after v k ih' es i e' hi hik, hdrop,
                    optionMapList_cons_some _ _ e' _
                      ((broadcastEltSpec_obj after v fs ha).trans hsv),
                    map_cons_assoc]
      | arr a b =>
          rw [he] at hdrop
          by_cases ha : after = ""
          · subst ha
            show WildcardArrayPathHandler.sbLoop "" v (es.set i v) (i + 1) k = _
            rw [sbLoop_cont "" v k ih' es i v hi hik, hdrop,
                optionMapList_cons_some _ _ v _ (broadcastEltSpec_empty v _),
                map_cons_assoc]
          · rw [if_neg ha]
            simp only [he]
            cases hsv : setValueByPath (Node.arr a b) after v with
            | none =>
                rw [hdrop, optionMapList_cons_none _ _ _
                  ((broadcastEltSpec_arr after v a b ha).trans hsv)]
                rfl
            | some e' =>
                show WildcardArrayPathHandler.sbLoop after v (es.set i e')
                  (i + 1) k = _
                rw [sbLoop_cont after v k ih' es i e' hi hik, hdrop,
                    optionMapList_cons_some _ _ e' _
                      ((broadcastEltSpec_arr after v a b ha).trans hsv),
                    map_cons_assoc]

/-- C7 (amended): the broadcast writer seeds one empty container into an
empty target sequence, and then transforms the elements one by one:
Missing or ExplicitNull elements are first coerced to a fresh empty
container; with no sub-path every element is replaced outright by the
value; with a sub-path, container and sequence elements are written into
at the sub-path (throwing if that dereferences a null/primitive) while
Scalar elements are left unchanged and skipped; the element count of an
initially non-empty sequence is unchanged. -/
theorem claim7_broadcast (es : List Node) (after : String) (v : Node) :
    WildcardArrayPathHandler.setSingleValueToArray es after v =
      optionMapList (broadcastEltSpec after v)
        (if es.isEmpty then [Node.obj []] else es) ∧
    (∀ es', es ≠ [] →
      WildcardArrayPathHandler.setSingleValueToArray es after v = some es' →
      es'.length = es.length) := by
  have hmain : WildcardArrayPathHandler.setSingleValueToArray es after v =
      optionMapList (broadcastEltSpec after v)
        (if es.isEmpty then [Node.obj []] else es) := by
    rw [WildcardArrayPathHandler.setSingleValueToArray]
    rw [sbLoop_spec _ _ 0 after v (by simp)]
    simp
  refine ⟨hmain, ?_⟩
  intro es' hne hsome
  rw [hmain] at hsome
  have hie : es.isEmpty = false := by
    cases es with
    | nil => exact absurd rfl hne
    | cons a as => rfl
  rw [hie] at hsome
  simp only [Bool.false_eq_true, if_false] at hsome
  exact optionMapList_length _ _ _ hsome

theorem claim7_broadcast_witness :
    ([Node.obj [("c", Node.scalar "X")]] : List Node).length =
      ([Node.obj []] : List Node).length :=
  (claim7_broadcast [Node.obj []] "c" (Node.scalar "X")).2
    [Node.obj [("c", Node.scalar "X")]] (by decide) (by decide)

/-- C7 counterexample: the claim says elements that are not Containers
are coerced to a fresh empty Container before the sub-path write; on
`{a: ["s"]}` the broadcast write of `"X"` at `a[*].c` leaves the scalar
element untouched (it is skipped), and still reports `true`. -/
theorem claim7_broadcast_cex :
    PathProcessor.setNestedValue (Node.obj [("a", Node.arr [Node.scalar "s"] [])])
      "a[*].c" (Node.scalar "X") noOptions =
      some (true, Node.obj [("a", Node.arr [Node.scalar "s"] [])]) := by decide

/-! ## Claim C9 — cleanup after a rejected write -/

theorem lookup_of_any_false (fs : List (String × Node)) (k : String)
    (h : fs.any (fun kv => kv.1 == k) = false) :
    Node.lookupFields fs k = Node.undef := by
  induction fs with
  | nil => rfl
  | cons kv rest ih =>
      obtain ⟨k', w⟩ := kv
      simp only [List.any_cons, Bool.or_eq_false_iff] at h
      rw [Node.lookupFields]
      rw [if_neg (by simpa using h.1)]
      exact ih h.2

theorem lookup_delFields_self (fs : List (String × Node)) (k : String)
    (h : nodupNode.nodupFields fs = true) :
    Node.lookupFields (Node.delFields fs k) k = Node.undef := by
  induction fs with
  | nil => rfl
  | cons kv rest ih =>
      obtain ⟨k', w⟩ := kv
      rw [nodupNode.nodupFields] at h
      simp only [Bool.and_eq_true, Bool.not_eq_true'] at h
      obtain ⟨⟨hany, hw⟩, hrest⟩ := h
      rw [Node.delFields]
      by_cases hk : k' = k
      · rw [if_pos hk]
        subst hk
        exact lookup_of_any_false rest k' hany
      · rw [if_neg hk, Node.lookupFields, if_neg hk]
        exact ih hrest

theorem getField_delField_self (n : Node) (k : String)
    (h : nodupNode n = true) : (n.delField k).getField k = Node.undef := by
  cases n with
  | obj fs =>
      rw [nodupNode] at h
      exact lookup_delFields_self fs k h
  | arr es ps =>
      rw [nodupNode] at h
      simp only [Bool.and_eq_true] at h
      exact lookup_delFields_self ps k h.2
  | vnull => rfl
  | undef => rfl
  | scalar s => rfl

theorem nodup_lookupFields (fs : List (String × Node)) (k : String)
    (h : nodupNode.nodupFields fs = true) :
    nodupNode (Node.lookupFields fs k) = true := by
  induction fs with
  | nil => rfl
  | cons kv rest ih =>
      obtain ⟨k', w⟩ := kv
      rw [nodupNode.nodupFields] at h
      simp only [Bool.and_eq_true] at h
      rw [Node.lookupFields]
      by_cases hk : k' = k
      · rw [if_pos hk]; exact h.1.2
      · rw [if_neg hk]; exact ih h.2

theorem nodup_getField (n : Node) (k : String) (h : nodupNode n = true) :
    nodupNode (n.getField k) = true := by
  cases n with
  | obj fs => rw [nodupNode] at h; exact nodup_lookupFields fs k h
  | arr es ps =>
      rw [nodupNode] at h
      simp only [Bool.and_eq_true] at h
      exact nodup_lookupFields ps k h.2
  | vnull => rfl
  | undef => rfl
  | scalar s => rfl

theorem any_delFields_false (fs : List (String × Node)) (k : String)
    (p : String × Node → Bool) (h : fs.any p = false) :
    (Node.delFields fs k).any p = false := by
  induction fs with
  | nil => rfl
  | cons kv rest ih =>
      obtain ⟨k', w⟩ := kv
      simp only [List.any_cons, Bool.or_eq_false_iff] at h
      rw [Node.delFields]
      by_cases hk : k' = k
      · rw [if_pos hk]; exact h.2
      · rw [if_neg hk]
        simp only [List.any_cons, Bool.or_eq_false_iff]
        exact ⟨h.1, ih h.2⟩

theorem nodup_delFields (fs : List (String × Node)) (k : String)
    (h : nodupNode.nodupFields fs = true) :
    nodupNode.nodupFields (Node.delFields fs k) = true := by
  induction fs with
  | nil => rfl
  | cons kv rest ih =>
      obtain ⟨k', w⟩ := kv
      rw [nodupNode.nodupFields] at h
      simp only [Bool.and_eq_true, Bool.not_eq_true'] at h
      obtain ⟨⟨hany, hw⟩, hrest⟩ := h
      rw [Node.delFields]
      by_cases hk : k' = k
      · rw [if_pos hk]; exact hrest
      · rw [if_neg hk, nodupNode.nodupFields]
        simp only [Bool.and_eq_true, Bool.not_eq_true']
        exact ⟨⟨any_delFields_false rest k _ hany, hw⟩, ih hrest⟩

theorem nodup_delField (n : Node) (k : String) (h : nodupNode n = true) :
    nodupNode (n.delField k) = true := by
  cases n with
  | obj fs => rw [Node.delField, nodupNode]; rw [nodupNode] at h
              exact nodup_delFields fs k h
  | arr es ps =>
      rw [Node.delField, nodupNode]; rw [nodupNode] at h
      simp only [Bool.and_eq_true] at h ⊢
      exact ⟨h.1, nodup_delFields ps k h.2⟩
  | vnull => exact h
  | undef => exact h
  | scalar s => exact h

theorem any_setFields_ne (fs : List (String × Node)) (k k' : String)
    (v : Node) (hkk : (k == k') = false) :
    (Node.setFields fs k v).any (fun kv => kv.1 == k') =
      fs.any (fun kv => kv.1 == k') := by
  induction fs with
  | nil => simp [Node.setFields, hkk]
  | cons kv rest ih =>
      obtain ⟨k1, w⟩ := kv
      rw [Node.setFields]
      by_cases hk : k1 = k
      · subst hk; simp [hkk]
      · simp only [if_neg hk, List.any_cons, ih]

theorem nodup_setFields (fs : List (String × Node)) (k : String) (v : Node)
    (hfs : nodupNode.nodupFields fs = true) (hv : nodupNode v = true) :
    nodupNode.nodupFields (Node.setFields fs k v) = true := by
  induction fs with
  | nil =>
      rw [Node.setFields, nodupNode.nodupFields]
      simp [hv, nodupNode.nodupFields]
  | cons kv rest ih =>
      obtain ⟨k1, w⟩ := kv
      rw [nodupNode.nodupFields] at hfs
      simp only [Bool.and_eq_true, Bool.not_eq_true'] at hfs
      obtain ⟨⟨hany, hw⟩, hrest⟩ := hfs
      rw [Node.setFields]
      by_cases hk : k1 = k
      · rw [if_pos hk, nodupNode.nodupFields]
        simp only [Bool.and_eq_true, Bool.not_eq_true']
        exact ⟨⟨hany, hv⟩, hrest⟩
      · rw [if_neg hk, nodupNode.nodupFields]
        simp only [Bool.and_eq_true, Bool.not_eq_true']
        refine ⟨⟨?_, hw⟩, ih hrest⟩
        rw [any_setFields_ne rest k k1 v (by simpa using Ne.symm hk)]
        exact hany

theorem nodup_setField (n : Node) (k : String) (v : Node)
    (hn : nodupNode n = true) (hv : nodupNode v = true) :
    nodupNode (n.setField k v) = true := by
  cases n with
  | obj fs =>
      rw [Node.setField, nodupNode]; rw [nodupNode] at hn
      exact nodup_setFields fs k v hn hv
  | arr es ps =>
      rw [Node.setField, nodupNode]; rw [nodupNode] at hn
      simp only [Bool.and_eq_true] at hn ⊢
      exact ⟨hn.1, nodup_setFields ps k v hn.2 hv⟩
  | vnull => exact hn
  | undef => exact hn
  | scalar s => exact hn

theorem nodup_cleanupParts (parts : List String) :
    ∀ (n : Node), nodupNode n = true →
    nodupNode (NestedObjectPathHandler.cleanupParts n parts) = true := by
  induction parts with
  | nil => intro n h; exact h
  | cons p rest ih =>
      intro n h
      cases rest with
      | nil =>
          rw [NestedObjectPathHandler.cleanupParts]
          split
          · exact nodup_delField n p h
          · exact h
      | cons r rs =>
          show nodupNode
            (if ((n.getField p).truthy && (n.getField p).typeofObject) = true then
              if isEmptyObject
                  (NestedObjectPathHandler.cleanupParts (n.getField p) (r :: rs)) =
                  true then
                n.delField p
              else
                n.setField p
                  (NestedObjectPathHandler.cleanupParts (n.getField p) (r :: rs))
            else n) = true
          split
          · split
            · exact nodup_delField n p h
            · exact nodup_setField n p _ h (ih _ (nodup_getField n p h))
          · exact h

theorem splitChar_go_ne_nil (c : Char) :
    ∀ (l acc : List Char), splitChar.go c l acc ≠ [] := by
  intro l
  induction l with
  | nil => intro acc; simp [splitChar.go]
  | cons x rest ih =>
      intro acc
      rw [splitChar.go]
      by_cases hx : x = c
      · simp [hx]
      · rw [if_neg hx]; exact ih _

theorem splitChar_ne_nil (c : Char) (s : String) : splitChar c s ≠ [] :=
  splitChar_go_ne_nil c s.data []

/-- After cleanup of a path, no non-empty prefix of that path resolves to
an empty container: the addressed key is deleted when empty and so is
every ancestor on the path that is (or becomes) empty. -/
theorem cleanup_prefix_not_empty :
    ∀ (ps : List String) (obj : Node) (qs : List String), ps ≠ [] →
    nodupNode obj = true →
    isEmptyObject
      (walkRead (NestedObjectPathHandler.cleanupParts obj (ps ++ qs)) ps) =
      false := by
  intro ps
  induction ps with
  | nil => intro obj qs h _; exact absurd rfl h
  | cons p ps' ih =>
      intro obj qs _ hnd
      cases hpq : ps' ++ qs with
      | nil =>
          have hps' : ps' = [] := by cases ps' <;> simp_all
          have hqs : qs = [] := by cases qs <;> simp_all
          subst hps'; subst hqs
          show isEmptyObject (walkRead
            (if isEmptyObject (obj.getField p) = true then obj.delField p
             else obj) [p]) = false
          by_cases hc : isEmptyObject (obj.getField p) = true
          · rw [if_pos hc]
            cases obj with
            | undef => rfl
            | vnull => rfl
            | scalar s => rfl
            | obj fs =>
                have hdel := lookup_delFields_self fs p
                  (by rw [nodupNode] at hnd; exact hnd)
                simp [walkRead, readStep, Node.delField, Node.getField, hdel,
                  isEmptyObject]
            | arr es aps =>
                have hnd2 : nodupNode.nodupFields aps = true := by
                  rw [nodupNode] at hnd
                  exact (Bool.and_eq_true .. ▸ hnd).2
                have hdel := lookup_delFields_self aps p hnd2
                simp [walkRead, readStep, Node.delField, Node.getField, hdel,
                  isEmptyObject]
          · rw [if_neg hc]
            cases obj with
            | undef => rfl
            | vnull => rfl
            | scalar s => rfl
            | obj fs => simpa [walkRead, readStep, Node.getField] using hc
            | arr es aps => simpa [walkRead, readStep, Node.getField] using hc
      | cons r rs =>
          have hred : (p :: ps') ++ qs = p :: r :: rs := by
            rw [List.cons_append, hpq]
          rw [hred]
          show isEmptyObject (walkRead
            (if ((obj.getField p).truthy && (obj.getField p).typeofObject) = true
             then
               if isEmptyObject
                   (NestedObjectPathHandler.cleanupParts (obj.getField p)
                     (r :: rs)) = true then
                 obj.delField p
               else
                 obj.setField p
                   (NestedObjectPathHandler.cleanupParts (obj.getField p)
                     (r :: rs))
             else obj) (p :: ps')) = false
          by_cases hok : ((obj.getField p).truthy && (obj.getField p).typeofObject)
              = true
          · rw [if_pos hok]
            have hobjLike : obj.objLike = true := by
              cases obj <;> simp_all [Node.getField, Node.truthy, Node.objLike]
            by_cases hemp : isEmptyObject
                (NestedObjectPathHandler.cleanupParts (obj.getField p) (r :: rs)) =
                true
            · rw [if_pos hemp]
              have hdl : (obj.delField p).objLike = true := by
                cases obj <;> simp_all [Node.delField, Node.objLike]
              have hget : (obj.delField p).getField p = Node.undef :=
                getField_delField_self obj p hnd
              have hstep : walkRead (obj.delField p) (p :: ps') =
                  walkRead Node.undef ps' := by
                rw [walkRead, List.foldl_cons,
                    readStep_eq_getField _ _ hdl, hget]
                rfl
              rw [hstep, walkRead_undef]
              rfl
            · rw [if_neg hemp]
              have hstep : walkRead
                  (obj.setField p
                    (NestedObjectPathHandler.cleanupParts (obj.getField p)
                      (r :: rs))) (p :: ps') =
                  walkRead
                    (NestedObjectPathHandler.cleanupParts (obj.getField p)
                      (r :: rs)) ps' := by
                rw [walkRead, List.foldl_cons,
                    readStep_eq_getField _ _ (Node.objLike_setField _ _ _ hobjLike),
                    Node.getField_setField _ _ _ hobjLike]
                rfl
              rw [hstep]
              cases hps' : ps' with
              | nil =>
                  simp only [walkRead, List.foldl_nil]
                  simpa using hemp
              | cons a as =>
                  have hres := ih (obj.getField p) qs (by simp [hps'])
                    (nodup_getField obj p hnd)
                  rw [hpq] at hres
                  rw [← hps']
                  exact hres
          · rw [if_neg hok]
            cases obj with
            | undef => rw [walkRead_undef]; rfl
            | vnull => rw [walkRead_vnull]; rfl
            | scalar s => rw [walkRead_scalar]; rfl
            | obj fs =>
                have hstep : walkRead (Node.obj fs) (p :: ps') =
                    walkRead ((Node.obj fs).getField p) ps' := by
                  rw [walkRead, List.foldl_cons]; rfl
                rw [hstep]
                cases hch : (Node.obj fs).getField p with
                | undef => rw [walkRead_undef]; rfl
                | vnull => rw [walkRead_vnull]; rfl
                | scalar s2 =>
                    cases ps' with
                    | nil => rfl
                    | cons a as => rw [walkRead_scalar]; rfl
                | obj gs =>
                    rw [hch] at hok
                    simp [Node.truthy, Node.typeofObject] at hok
                | arr a2 b2 =>
                    rw [hch] at hok
                    simp [Node.truthy, Node.typeofObject] at hok
            | arr es aps =>
                have hstep : walkRead (Node.arr es aps) (p :: ps') =
                    walkRead ((Node.arr es aps).getField p) ps' := by
                  rw [walkRead, List.foldl_cons]; rfl
                rw [hstep]
                cases hch : (Node.arr es aps).getField p with
                | undef => rw [walkRead_undef]; rfl
                | vnull => rw [walkRead_vnull]; rfl
                | scalar s2 =>
                    cases ps' with
                    | nil => rfl
                    | cons a as => rw [walkRead_scalar]; rfl
                | obj gs =>
                    rw [hch] at hok
                    simp [Node.truthy, Node.typeofObject] at hok
                | arr a2 b2 =>
                    rw [hch] at hok
                    simp [Node.truthy, Node.typeofObject] at hok

/-- C9 (amended): cleanup after a rejected write deletes the addressed
key when it holds an empty Container and every ancestor along the path
that is — or becomes — empty, *including* containers that existed
independently of the write; after cleanup no non-empty prefix of the
path resolves to an empty Container, and when the path's first segment
is Missing in the tree the cleanup leaves the tree unchanged (so a
gate-rejected write with no pre-existing intermediate chain leaves the
tree structurally unchanged). -/
theorem claim9_cleanup :
    (∀ (ps : List String) (obj : Node) (qs : List String), ps ≠ [] →
      nodupNode obj = true →
      isEmptyObject
        (walkRead (NestedObjectPathHandler.cleanupParts obj (ps ++ qs)) ps) =
        false) ∧
    (∀ (obj : Node) (p : String) (rest : List String),
      obj.getField p = Node.undef →
      NestedObjectPathHandler.cleanupParts obj (p :: rest) = obj) ∧
    (∀ (obj : Node) (path : String), nodupNode obj = true → path ≠ "" →
      isEmptyObject
        (walkRead (NestedObjectPathHandler.cleanupEmptyObjects obj path)
          (splitChar '.' path)) = false) := by
  refine ⟨cleanup_prefix_not_empty, ?_, ?_⟩
  · intro obj p rest h
    cases rest with
    | nil =>
        show (if isEmptyObject (obj.getField p) = true then obj.delField p
              else obj) = obj
        rw [h]
        rfl
    | cons r rs =>
        show (if ((obj.getField p).truthy && (obj.getField p).typeofObject) = true
              then
                if isEmptyObject
                    (NestedObjectPathHandler.cleanupParts (obj.getField p)
                      (r :: rs)) = true then
                  obj.delField p
                else
                  obj.setField p
                    (NestedObjectPathHandler.cleanupParts (obj.getField p)
                      (r :: rs))
              else obj) = obj
        rw [h]
        rfl
  · intro obj path hnd hp
    rw [NestedObjectPathHandler.cleanupEmptyObjects]
    by_cases htr : obj.truthy = true
    · rw [if_neg (by simp [htr, hp])]
      have := cleanup_prefix_not_empty (splitChar '.' path) obj []
        (splitChar_ne_nil '.' path) hnd
      simpa using this
    · rw [if_pos (by simp [htr])]
      cases hsp : splitChar '.' path with
      | nil => exact absurd hsp (splitChar_ne_nil '.' path)
      | cons a as =>
          cases obj with
          | undef => rw [walkRead_undef]; rfl
          | vnull => rw [walkRead_vnull]; rfl
          | scalar s => rw [walkRead_scalar]; rfl
          | obj fs => simp [Node.truthy] at htr
          | arr es aps => simp [Node.truthy] at htr

theorem claim9_cleanup_witness :
    isEmptyObject (walkRead (NestedObjectPathHandler.cleanupParts
      (Node.obj [("a", Node.obj [("b", Node.obj [])])]) (["a"] ++ ["b"]))
      ["a"]) = false :=
  claim9_cleanup.1 ["a"] (Node.obj [("a", Node.obj [("b", Node.obj [])])])
    ["b"] (by decide) (by decide)

/-- C9 counterexample: the claim says cleanup never removes a container
that existed independently of the write.  On `{a: {}}` (a pre-existing
empty container, created by no write), the gate-rejected write of
ExplicitNull at `a.b` under `skipNull` mutates nothing, yet the mandated
cleanup deletes `a`. -/
theorem claim9_cleanup_cex :
    NestedObjectPathHandler.setNestedValue (Node.obj [("a", Node.obj [])]) "a.b"
      Node.vnull ⟨true, false, false, false⟩ =
      (false, Node.obj [("a", Node.obj [])]) ∧
    NestedObjectPathHandler.cleanupEmptyObjects (Node.obj [("a", Node.obj [])])
      "a.b" = Node.obj [] ∧
    Node.obj [] ≠ Node.obj [("a", Node.obj [])] := by decide

/-! ## Claim C8 — rectangular fill for multi-wildcard target writes -/

theorem containsWildcard_of_hasNested (p : String)
    (h : hasNestedWildcards p = true) : containsWildcard p = true := by
  rw [hasNestedWildcards] at h
  rw [containsWildcard]
  cases hs : subIdx p.data wildcardPattern with
  | none => rw [hs] at h; simp at h
  | some i => simp

theorem growToAux_eq :
    ∀ (k : Nat) (es : List Node),
    WildcardArrayPathHandler.growToAux es k = es ++ List.replicate k (Node.obj []) := by
  intro k
  induction k with
  | zero => intro es; simp [WildcardArrayPathHandler.growToAux]
  | succ k ih =>
      intro es
      rw [WildcardArrayPathHandler.growToAux, ih]
      simp [List.replicate_succ]

theorem growTo_nil (n : Nat) :
    WildcardArrayPathHandler.growTo [] n = List.replicate n (Node.obj []) := by
  rw [WildcardArrayPathHandler.growTo, growToAux_eq]
  simp

theorem getD_set_ne (l : List Node) (i j : Nat) (a : Node) (h : i ≠ j) :
    (l.set i a).getD j Node.undef = l.getD j Node.undef := by
  rw [List.getD_eq_getElem?_getD, List.getD_eq_getElem?_getD,
      List.getElem?_set_ne h]

theorem idxLoopAux_length (tf : Nat → Node → Node) (bound : Nat) :
    ∀ (k : Nat) (es : List Node) (i : Nat),
    (WildcardArrayPathHandler.idxLoopAux tf bound es i k).length = es.length := by
  intro k
  induction k with
  | zero => intro es i; rfl
  | succ k ih =>
      intro es i
      rw [WildcardArrayPathHandler.idxLoopAux]
      by_cases hi : i < bound
      · rw [if_pos hi, ih]; simp
      · rw [if_neg hi]

theorem idxLoopAux_getD (tf : Nat → Node → Node) (bound : Nat) :
    ∀ (k : Nat) (es : List Node) (i : Nat), i + k = bound → es.length = bound →
    ∀ (j : Nat), j < bound →
    (WildcardArrayPathHandler.idxLoopAux tf bound es i k).getD j Node.undef =
      if i ≤ j then tf j (es.getD j Node.undef) else es.getD j Node.undef := by
  intro k
  induction k with
  | zero =>
      intro es i hik hlen j hj
      rw [if_neg (by omega)]
      rfl
  | succ k ih =>
      intro es i hik hlen j hj
      have hi : i < bound := by omega
      rw [WildcardArrayPathHandler.idxLoopAux, if_pos hi]
      have hilen : i < es.length := by omega
      rw [ih (es.set i (tf i (es.getD i Node.undef))) (i + 1) (by omega)
        (by simp [hlen]) j hj]
      rcases Nat.lt_trichotomy j i with hlt | heq | hgt
      · rw [if_neg (by omega), if_neg (by omega), getD_set_ne _ _ _ _ (by omega)]
      · subst heq
        rw [if_neg (by omega), if_pos (le_refl j), getD_set_self _ _ _ hilen]
      · rw [if_pos (by omega), if_pos (by omega), getD_set_ne _ _ _ _ (by omega)]

theorem list_eq_of_getD (l1 l2 : List Node) (hlen : l1.length = l2.length)
    (h : ∀ j, j < l1.length → l1.getD j Node.undef = l2.getD j Node.undef) :
    l1 = l2 := by
  apply List.ext_getElem hlen
  intro n h1 h2
  have := h n h1
  rwa [List.getD_eq_getElem l1 Node.undef h1,
       List.getD_eq_getElem l2 Node.undef h2] at this

theorem idxLoop_eq_map (tf : Nat → Node → Node) (bound : Nat) (es : List Node)
    (hlen : es.length = bound) :
    WildcardArrayPathHandler.idxLoop tf bound es 0 =
      (List.range bound).map (fun j => tf j (es.getD j Node.undef)) := by
  rw [WildcardArrayPathHandler.idxLoop]
  apply list_eq_of_getD
  · rw [idxLoopAux_length]
    simp [hlen]
  · intro j hj
    rw [idxLoopAux_length] at hj
    rw [hlen] at hj
    rw [idxLoopAux_getD tf bound (bound - 0) es 0 (by omega) hlen j hj,
        if_pos (Nat.zero_le j)]
    have hjr : j < (List.range bound).length := by simp [hj]
    rw [List.getD_eq_getElem _ Node.undef (by simp [hj] : j < ((List.range bound).map
      (fun j => tf j (es.getD j Node.undef))).length)]
    simp [List.getElem_map, List.getElem_range]

/-- The rectangular fill over fresh outer/inner arrays produces the
`outer × inner` grid of containers with the row-major prefix carrying the
property values. -/
theorem rect_fill_core (vs : List Node) (outer inner : Nat) :
    Node.arr (WildcardArrayPathHandler.idxLoop
      (WildcardArrayPathHandler.outerTf "" "items" "v" inner vs) outer
      (WildcardArrayPathHandler.growTo [] outer) 0) [] =
    Node.arr ((List.range outer).map fun i =>
      Node.obj [("items", Node.arr ((List.range inner).map fun j =>
        if i * inner + j < vs.length then
          Node.obj [("v", vs.getD (i * inner + j) Node.undef)]
        else Node.obj []) [])]) [] := by
  rw [growTo_nil, idxLoop_eq_map _ _ _ (List.length_replicate _ _)]
  congr 1
  apply List.map_congr_left
  intro i hi
  have hrep : (List.replicate outer (Node.obj [])).getD i Node.undef =
      Node.obj [] := by
    rw [List.getD_eq_getElem?_getD, List.getElem?_replicate,
        if_pos (List.mem_range.mp hi)]
    rfl
  rw [hrep]
  rw [WildcardArrayPathHandler.outerTf]
  simp only [Node.truthy, Node.typeofObject, Bool.not_true, Bool.or_self,
    Bool.false_eq_true, if_false]
  rw [if_neg (by simp)]
  rw [if_pos (by simp : ("items" : String) ≠ "")]
  show Node.setField (Node.obj []) "items"
    (Node.arr (WildcardArrayPathHandler.idxLoop
      (WildcardArrayPathHandler.innerTf i inner "v" vs) inner
      (WildcardArrayPathHandler.growTo [] inner) 0) []) = _
  rw [growTo_nil, idxLoop_eq_map _ _ _ (List.length_replicate _ _)]
  have hmap : List.map (fun j => WildcardArrayPathHandler.innerTf i inner "v" vs j
        ((List.replicate inner (Node.obj [])).getD j Node.undef)) (List.range inner) =
      List.map (fun j =>
        if i * inner + j < vs.length then
          Node.obj [("v", vs.getD (i * inner + j) Node.undef)]
        else Node.obj []) (List.range inner) := by
    apply List.map_congr_left
    intro j hj
    have hrep2 : (List.replicate inner (Node.obj [])).getD j Node.undef =
        Node.obj [] := by
      rw [List.getD_eq_getElem?_getD, List.getElem?_replicate,
          if_pos (List.mem_range.mp hj)]
      rfl
    rw [hrep2, WildcardArrayPathHandler.innerTf]
    simp only [Node.truthy, Node.typeofObject, Bool.not_true, Bool.or_self,
      Bool.false_eq_true, if_false]
    by_cases hlt : i * inner + j < vs.length
    · rw [if_pos ⟨by simp, hlt⟩, if_pos hlt]
      rfl
    · rw [if_neg (by simp [hlt]), if_neg hlt]
  rw [hmap]
  rfl

theorem rect_fill_grid (vs : List Node) :
    WildcardArrayPathHandler.setNestedWildcardTargetValue (Node.obj [])
      "g[*].items[*].v" (Node.arr vs []) = some (true, gridSpec vs) := by
  have hparse : parsePathForNestedWildcards "g[*].items[*].v" =
      ⟨none, some "g", none, some "items", some "v"⟩ := by decide
  rw [WildcardArrayPathHandler.setNestedWildcardTargetValue, hparse]
  exact congrArg (fun t => some (true, Node.obj [("g", t)]))
    (rect_fill_core vs
      (if vs.length > 0 then WildcardArrayPathHandler.csqrt vs.length else 2)
      (if vs.length > 0 then
        WildcardArrayPathHandler.ceilDiv vs.length
          (if vs.length > 0 then WildcardArrayPathHandler.csqrt vs.length else 2)
      else 2))

/-- C8: the rectangular fill is selected whenever the path has more than
one wildcard marker and the value is a Sequence — regardless of any
already-populated mirror structure — and on a fresh tree a double-wildcard
write of a length-`N` sequence produces the row-major
`ceil(sqrt N) × ceil(N / outer)` grid (`2 × 2` for `N = 0`). -/
theorem claim8_rectangular_fill :
    (∀ (obj : Node) (path : String) (v : Node) (o : ValueOptions),
      shouldSkipValue v o = false → hasNestedWildcards path = true →
      1 < countWildcards path → v.isArrayB = true →
      PathProcessor.setNestedValue obj path v o =
        WildcardArrayPathHandler.setNestedWildcardTargetValue obj path v) ∧
    (∀ vs : List Node,
      PathProcessor.setNestedValue (Node.obj []) "g[*].items[*].v"
        (Node.arr vs []) noOptions = some (true, gridSpec vs)) := by
  constructor
  · intro obj path v o hskip hnest hcnt harr
    have hcw := containsWildcard_of_hasNested path hnest
    have htgt : WildcardArrayPathHandler.isTargetNestedWildcardPath path v =
        true := by
      rw [WildcardArrayPathHandler.isTargetNestedWildcardPath, harr,
          decide_eq_true hcnt]
      rfl
    rw [PathProcessor.setNestedValue, if_pos hcw,
        WildcardArrayPathHandler.setNestedValue, if_neg (by simp [hskip]),
        if_pos hcw, if_pos hnest, if_pos htgt]
  · intro vs
    have htgt : WildcardArrayPathHandler.isTargetNestedWildcardPath
        "g[*].items[*].v" (Node.arr vs []) = true := by
      rw [WildcardArrayPathHandler.isTargetNestedWildcardPath]
      show decide (1 < countWildcards "g[*].items[*].v") && true = true
      decide
    rw [PathProcessor.setNestedValue, if_pos (by decide),
        WildcardArrayPathHandler.setNestedValue,
        if_neg (by simp [shouldSkipValue_noOptions]),
        if_pos (by decide), if_pos (by decide), if_pos htgt]
    exact rect_fill_grid vs

/-- Witness for C8: a concrete dispatch into the rectangular fill and a
concrete one-element grid write. -/
theorem claim8_rectangular_fill_witness :
    (PathProcessor.setNestedValue (Node.obj []) "x[*].y[*]" (Node.arr [] [])
        noOptions =
      WildcardArrayPathHandler.setNestedWildcardTargetValue (Node.obj [])
        "x[*].y[*]" (Node.arr [] [])) ∧
    PathProcessor.setNestedValue (Node.obj []) "g[*].items[*].v"
        (Node.arr [Node.scalar "a"] []) noOptions =
      some (true, gridSpec [Node.scalar "a"]) :=
  ⟨claim8_rectangular_fill.1 (Node.obj []) "x[*].y[*]" (Node.arr [] [])
      noOptions (by decide) (by decide) (by decide) rfl,
   claim8_rectangular_fill.2 [Node.scalar "a"]⟩

/-- Counterexample to C8 as frozen: the rectangular fill also applies
when the value CAN be matched against an already-populated mirror
structure — the existing `2 + 1` grouping is overwritten by the
row-major `2 × 2` grid, leaving a stray empty container. -/
theorem claim8_rectangular_fill_cex :
    PathProcessor.setNestedValue
      (Node.obj [("g", Node.arr [
        Node.obj [("items", Node.arr [Node.obj [], Node.obj []] [])],
        Node.obj [("items", Node.arr [Node.obj []] [])]] [])])
      "g[*].items[*].v"
      (Node.arr [Node.scalar "a", Node.scalar "b", Node.scalar "c"] [])
      noOptions =
      some (true, Node.obj [("g", Node.arr [
        Node.obj [("items", Node.arr [Node.obj [("v", Node.scalar "a")],
          Node.obj [("v", Node.scalar "b")]] [])],
        Node.obj [("items", Node.arr [Node.obj [("v", Node.scalar "c")],
          Node.obj []] [])]] [])]) := by decide
